import Mathlib

/-!
Verification of the RECS entity-component store
(`src/engine/sparse_set.h` and `src/engine/ecs.h`).

The C++ code is shallowly embedded: each C++ member function becomes a pure
Lean function on an explicit state value.  Machine integers (`uint32_t`
entity indices, `uint64_t` mask words, `size_t` counts) are modelled as
`Nat`; the only in-band sentinel, `SparseSet::INVALID = (Entity)-1`, is
modelled out-of-band as `Option.none` in the sparse slots (it is only ever
written and compared as a unit, never used arithmetically, so the two
representations coincide on every state the 32-bit machine itself can
represent, i.e. whenever fewer than `2^32 - 1` dense entries exist).
-/

namespace RECS

/-! ## SparseSet (src/engine/sparse_set.h)

`SparseSet<T, Entity = uint32_t>`: paged sparse index plus packed dense
arrays.  A sparse page holds `2048` slots; a slot is `none` (the `INVALID`
sentinel) or a dense index.  A page that was never allocated is `none`
in the page table (the C++ `nullptr`). -/

/-- One sparse page: 2048 slots, each `none` (= `INVALID`) or a dense index. -/
abbrev Page : Type := List (Option Nat)

/-- `SPARSE_SET_PAGE_BITS = 11`. -/
def PAGE_BITS : Nat := 11

/-- `SPARSE_SET_PAGE_SIZE = 1 << 11 = 2048`. -/
def PAGE_SIZE : Nat := 2 ^ PAGE_BITS

/-- Read entry `q` of the page table (`nullptr`, i.e. `none`, when out of
range: the C++ `page_idx >= pages.size()` test in `sparse_ptr`). -/
def ptget (pages : List (Option Page)) (q : Nat) : Option Page :=
  pages[q]?.getD none

/-- Read slot `off` of a page. -/
def pgget (pg : Page) (off : Nat) : Option Nat :=
  pg[off]?.getD none

/-- State of `SparseSet<T>`: the paged sparse table and the two parallel
dense arrays (`dense_entities` and `components`). -/
structure SparseSet (T : Type) where
  pages : List (Option Page)
  dense_entities : List Nat
  components : List T

/-- A freshly constructed `SparseSet` (all vectors empty). -/
def SparseSet.empty (T : Type) : SparseSet T := ⟨[], [], []⟩

/-- First half of `ensure_page`: `pages.resize(page_idx + 1, nullptr)` when
the table is too short. -/
def pad_pages (pages : List (Option Page)) (pidx : Nat) : List (Option Page) :=
  if pages.length ≤ pidx
  then pages ++ List.replicate (pidx + 1 - pages.length) none
  else pages

/-- `ensure_page(page_idx)`: grow the page table up to `page_idx` and
allocate an `INVALID`-filled 2048-slot page there if absent. -/
def ensure_page (pages : List (Option Page)) (pidx : Nat) : List (Option Page) :=
  match ptget (pad_pages pages pidx) pidx with
  | none => (pad_pages pages pidx).set pidx (some (List.replicate PAGE_SIZE none))
  | some _ => pad_pages pages pidx

/-- Read `sparse[e]` through the page table: `none` when the page was never
allocated (`sparse_ptr` returning `nullptr`) or when the slot holds the
`INVALID` sentinel; `some i` when the slot holds dense index `i`. -/
def sval (pages : List (Option Page)) (e : Nat) : Option Nat :=
  match ptget pages (e / PAGE_SIZE) with
  | none => none
  | some pg => pgget pg (e % PAGE_SIZE)

/-- Write `sparse_ref(e) = v` (allocating the page first, as `sparse_ref`
does via `ensure_page`). -/
def sparse_write (pages : List (Option Page)) (e : Nat) (v : Option Nat) :
    List (Option Page) :=
  match ptget (ensure_page pages (e / PAGE_SIZE)) (e / PAGE_SIZE) with
  | some pg =>
      (ensure_page pages (e / PAGE_SIZE)).set (e / PAGE_SIZE)
        (some (pg.set (e % PAGE_SIZE) v))
  | none => ensure_page pages (e / PAGE_SIZE)

/-- `contains(e)`: sparse slot readable, not `INVALID`, and the dense entry
it points at equals `e` (the stale-slot defence in the source). -/
def SparseSet.contains {T : Type} (s : SparseSet T) (e : Nat) : Bool :=
  match sval s.pages e with
  | none => false
  | some idx => s.dense_entities[idx]? == some e

/-- `insert(e, value)`: overwrite in place when present, otherwise append to
the dense arrays and point the sparse slot at the new last position. -/
def SparseSet.insert {T : Type} (s : SparseSet T) (e : Nat) (v : T) : SparseSet T :=
  if s.contains e then
    match sval s.pages e with
    | some idx => { s with components := s.components.set idx v }
    | none => s
  else
    { pages := sparse_write s.pages e (some s.dense_entities.length),
      dense_entities := s.dense_entities ++ [e],
      components := s.components ++ [v] }

/-- `erase(e)`: no-op when absent; otherwise swap-remove: move the last
dense element into the vacated slot, repoint the moved key's sparse slot,
shrink both dense arrays, and invalidate `e`'s sparse slot (in the order
the source performs these writes). -/
def SparseSet.erase {T : Type} (s : SparseSet T) (e : Nat) : SparseSet T :=
  if s.contains e then
    match sval s.pages e,
          s.dense_entities[s.dense_entities.length - 1]?,
          s.components[s.dense_entities.length - 1]? with
    | some idx, some last_entity, some last_comp =>
      { pages := sparse_write (sparse_write s.pages last_entity (some idx)) e none,
        dense_entities := (s.dense_entities.set idx last_entity).dropLast,
        components := (s.components.set idx last_comp).dropLast }
    | _, _, _ => s
  else s

/-- `get(e)` (which asserts `contains(e)` in the source): `none` models the
assertion-failure branch, `some` the returned reference's value. -/
def SparseSet.getv {T : Type} (s : SparseSet T) (e : Nat) : Option T :=
  match sval s.pages e with
  | some idx => s.components[idx]?
  | none => none

/-- `size()`: number of stored components (dense length). -/
def SparseSet.size {T : Type} (s : SparseSet T) : Nat := s.dense_entities.length

/-! ### Well-formedness of a sparse set -/

/-- All allocated pages have exactly `PAGE_SIZE` slots. -/
def PagesWF (pages : List (Option Page)) : Prop :=
  ∀ q pg, ptget pages q = some pg → pg.length = PAGE_SIZE

/-- Well-formedness invariant of a `SparseSet`: pages are full-sized, the
dense arrays run in lockstep, and the sparse table is exactly the inverse
of `dense_entities`. -/
structure SSWF {T : Type} (s : SparseSet T) : Prop where
  pagesWF : PagesWF s.pages
  lenEq : s.components.length = s.dense_entities.length
  denseToSparse : ∀ i k, s.dense_entities[i]? = some k → sval s.pages k = some i
  sparseToDense : ∀ k i, sval s.pages k = some i → s.dense_entities[i]? = some k

theorem SSWF_empty (T : Type) : SSWF (SparseSet.empty T) := by
  refine ⟨?_, rfl, ?_, ?_⟩
  · intro q pg h; simp [ptget, SparseSet.empty] at h
  · intro i k h; simp [SparseSet.empty] at h
  · intro k i h; simp [SparseSet.empty, sval, ptget] at h

/-! ### Page-level lemmas -/

theorem key_eq_of_page_eq {e e' : Nat} (hd : e / PAGE_SIZE = e' / PAGE_SIZE)
    (hm : e % PAGE_SIZE = e' % PAGE_SIZE) : e = e' := by
  have h1 := Nat.div_add_mod e PAGE_SIZE
  have h2 := Nat.div_add_mod e' PAGE_SIZE
  rw [hd] at h1
  omega

theorem mod_lt_PAGE_SIZE (e : Nat) : e % PAGE_SIZE < PAGE_SIZE :=
  Nat.mod_lt _ (by simp [PAGE_SIZE, PAGE_BITS])

theorem pgget_set_self {pg : Page} {off : Nat} (h : off < pg.length)
    (v : Option Nat) : pgget (pg.set off v) off = v := by
  unfold pgget
  rw [List.getElem?_set_self h]
  rfl

theorem pgget_set_other {pg : Page} {off off' : Nat} (h : off ≠ off')
    (v : Option Nat) : pgget (pg.set off v) off' = pgget pg off' := by
  unfold pgget
  rw [List.getElem?_set_ne h]

theorem pgget_replicate_none (off : Nat) :
    pgget (List.replicate PAGE_SIZE none) off = none := by
  unfold pgget
  rw [List.getElem?_replicate]
  split <;> rfl

theorem ptget_pad (pages : List (Option Page)) (pidx q : Nat) :
    ptget (pad_pages pages pidx) q = ptget pages q := by
  unfold pad_pages ptget
  split
  · rw [List.getElem?_append]
    split
    · rfl
    · rw [List.getElem?_replicate]
      have : pages[q]? = none := List.getElem?_eq_none (by omega)
      rw [this]
      split <;> rfl
  · rfl

theorem pad_length (pages : List (Option Page)) (pidx : Nat) :
    pidx < (pad_pages pages pidx).length := by
  unfold pad_pages
  split
  · rw [List.length_append, List.length_replicate]; omega
  · omega

theorem ptget_ensure_self (pages : List (Option Page)) (pidx : Nat) :
    ptget (ensure_page pages pidx) pidx =
      some ((ptget pages pidx).getD (List.replicate PAGE_SIZE none)) := by
  unfold ensure_page
  cases h : ptget (pad_pages pages pidx) pidx with
  | none =>
    have hp : ptget pages pidx = none := by rw [← ptget_pad pages pidx pidx]; exact h
    rw [hp]
    unfold ptget
    rw [List.getElem?_set_self (pad_length pages pidx)]
    rfl
  | some pg =>
    have hp : ptget pages pidx = some pg := by rw [← ptget_pad pages pidx pidx]; exact h
    rw [hp, h]
    rfl

theorem ptget_ensure_other (pages : List (Option Page)) (pidx q : Nat)
    (hq : q ≠ pidx) : ptget (ensure_page pages pidx) q = ptget pages q := by
  unfold ensure_page
  cases h : ptget (pad_pages pages pidx) pidx with
  | none =>
    unfold ptget
    rw [List.getElem?_set_ne (fun hc => hq hc.symm)]
    exact ptget_pad pages pidx q
  | some pg => exact ptget_pad pages pidx q

theorem ensure_length (pages : List (Option Page)) (pidx : Nat) :
    pidx < (ensure_page pages pidx).length := by
  unfold ensure_page
  cases h : ptget (pad_pages pages pidx) pidx with
  | none => rw [List.length_set]; exact pad_length pages pidx
  | some pg => exact pad_length pages pidx

theorem ensure_page_pagesWF {pages : List (Option Page)} (h : PagesWF pages)
    (pidx : Nat) : PagesWF (ensure_page pages pidx) := by
  intro q pg hq
  by_cases hqp : q = pidx
  · subst hqp
    rw [ptget_ensure_self pages q] at hq
    cases hq
    cases h3 : ptget pages q with
    | none => simp
    | some pg' => simpa using h q pg' h3
  · rw [ptget_ensure_other pages pidx q hqp] at hq
    exact h q pg hq

theorem default_page_length {pages : List (Option Page)} (h : PagesWF pages)
    (pidx : Nat) :
    ((ptget pages pidx).getD (List.replicate PAGE_SIZE none)).length = PAGE_SIZE := by
  cases h3 : ptget pages pidx with
  | none => simp
  | some pg => simpa using h pidx pg h3

theorem sval_of_ptget_some {pages : List (Option Page)} {e : Nat} {pg : Page}
    (h : ptget pages (e / PAGE_SIZE) = some pg) :
    sval pages e = pgget pg (e % PAGE_SIZE) := by
  unfold sval
  rw [h]

theorem sval_of_ptget_none {pages : List (Option Page)} {e : Nat}
    (h : ptget pages (e / PAGE_SIZE) = none) : sval pages e = none := by
  unfold sval
  rw [h]

theorem sval_ensure (pages : List (Option Page)) (pidx e : Nat) :
    sval (ensure_page pages pidx) e = sval pages e := by
  by_cases hq : e / PAGE_SIZE = pidx
  · rw [sval_of_ptget_some (by rw [hq]; exact ptget_ensure_self pages pidx)]
    cases h3 : ptget pages pidx with
    | none =>
      rw [sval_of_ptget_none (by rw [hq]; exact h3)]
      exact pgget_replicate_none _
    | some pg =>
      rw [sval_of_ptget_some (by rw [hq]; exact h3)]
      rfl
  · unfold sval
    rw [ptget_ensure_other pages pidx _ hq]

theorem ptget_write_self {pages : List (Option Page)} (h : PagesWF pages)
    (e : Nat) (v : Option Nat) :
    ptget (sparse_write pages e v) (e / PAGE_SIZE) =
      some (((ptget pages (e / PAGE_SIZE)).getD
        (List.replicate PAGE_SIZE none)).set (e % PAGE_SIZE) v) := by
  unfold sparse_write
  rw [ptget_ensure_self pages (e / PAGE_SIZE)]
  unfold ptget
  rw [List.getElem?_set_self (ensure_length pages (e / PAGE_SIZE))]
  rfl

theorem ptget_write_other (pages : List (Option Page)) (e : Nat)
    (v : Option Nat) (q : Nat) (hq : q ≠ e / PAGE_SIZE) :
    ptget (sparse_write pages e v) q = ptget pages q := by
  unfold sparse_write
  cases h : ptget (ensure_page pages (e / PAGE_SIZE)) (e / PAGE_SIZE) with
  | some pg =>
    unfold ptget
    rw [List.getElem?_set_ne (fun hc => hq hc.symm)]
    exact ptget_ensure_other pages _ q hq
  | none => exact ptget_ensure_other pages _ q hq

theorem sval_write_self {pages : List (Option Page)} (h : PagesWF pages)
    (e : Nat) (v : Option Nat) : sval (sparse_write pages e v) e = v := by
  rw [sval_of_ptget_some (ptget_write_self h e v)]
  exact pgget_set_self (by rw [default_page_length h]; exact mod_lt_PAGE_SIZE e) v

theorem sval_write_other {pages : List (Option Page)} (h : PagesWF pages)
    {e e' : Nat} (hne : e' ≠ e) (v : Option Nat) :
    sval (sparse_write pages e v) e' = sval pages e' := by
  by_cases hq : e' / PAGE_SIZE = e / PAGE_SIZE
  · rw [sval_of_ptget_some (by rw [hq]; exact ptget_write_self h e v)]
    have hoff : e % PAGE_SIZE ≠ e' % PAGE_SIZE := by
      intro hc
      exact hne (key_eq_of_page_eq hq hc.symm)
    rw [pgget_set_other hoff v]
    cases h3 : ptget pages (e / PAGE_SIZE) with
    | none =>
      rw [sval_of_ptget_none (by rw [hq]; exact h3)]
      exact pgget_replicate_none _
    | some pg =>
      rw [sval_of_ptget_some (by rw [hq]; exact h3)]
      rfl
  · unfold sval
    rw [ptget_write_other pages e v _ hq]

theorem sparse_write_pagesWF {pages : List (Option Page)} (h : PagesWF pages)
    (e : Nat) (v : Option Nat) : PagesWF (sparse_write pages e v) := by
  intro q pg hq
  by_cases hqp : q = e / PAGE_SIZE
  · subst hqp
    rw [ptget_write_self h e v] at hq
    cases hq
    rw [List.length_set]
    exact default_page_length h _
  · rw [ptget_write_other pages e v q hqp] at hq
    exact h q pg hq

/-! ### SparseSet operation lemmas -/

theorem contains_true_elim {T : Type} {s : SparseSet T} {e : Nat}
    (h : s.contains e = true) :
    ∃ idx, sval s.pages e = some idx ∧ s.dense_entities[idx]? = some e := by
  unfold SparseSet.contains at h
  cases h3 : sval s.pages e with
  | none => rw [h3] at h; simp at h
  | some idx =>
    rw [h3] at h
    simp only [beq_iff_eq] at h
    exact ⟨idx, rfl, h⟩

theorem contains_of_sval {T : Type} {s : SparseSet T} {e idx : Nat}
    (hs : sval s.pages e = some idx) (hd : s.dense_entities[idx]? = some e) :
    s.contains e = true := by
  unfold SparseSet.contains
  rw [hs]
  show (s.dense_entities[idx]? == some e) = true
  rw [hd]
  simp

theorem contains_iff_mem {T : Type} {s : SparseSet T} (hwf : SSWF s) (e : Nat) :
    s.contains e = true ↔ e ∈ s.dense_entities := by
  constructor
  · intro h
    obtain ⟨idx, _, hd⟩ := contains_true_elim h
    exact List.mem_iff_getElem?.2 ⟨idx, hd⟩
  · intro h
    obtain ⟨i, hi⟩ := List.mem_iff_getElem?.1 h
    exact contains_of_sval (hwf.denseToSparse i e hi) hi

theorem sval_eq_none_of_not_contains {T : Type} {s : SparseSet T} (hwf : SSWF s)
    {e : Nat} (h : s.contains e = false) : sval s.pages e = none := by
  cases h3 : sval s.pages e with
  | none => rfl
  | some i =>
    have hd := hwf.sparseToDense e i h3
    rw [contains_of_sval h3 hd] at h
    cases h

theorem getv_isSome_of_contains {T : Type} {s : SparseSet T} (hwf : SSWF s)
    {e : Nat} (h : s.contains e = true) : (s.getv e).isSome = true := by
  obtain ⟨idx, hs, hd⟩ := contains_true_elim h
  unfold SparseSet.getv
  rw [hs]
  have hlt : idx < s.dense_entities.length := by
    rcases List.getElem?_eq_some_iff.1 hd with ⟨hl, _⟩
    exact hl
  show (s.components[idx]?).isSome = true
  rw [List.getElem?_eq_getElem (by rw [hwf.lenEq]; exact hlt)]
  rfl

/-- The two branches of `insert`, as equations on the state. -/
theorem insert_spec_overwrite {T : Type} {s : SparseSet T} {e idx : Nat}
    (hc : s.contains e = true) (hs : sval s.pages e = some idx) (v : T) :
    s.insert e v = { s with components := s.components.set idx v } := by
  unfold SparseSet.insert
  rw [if_pos hc, hs]

theorem insert_spec_new {T : Type} {s : SparseSet T} {e : Nat}
    (hc : s.contains e = false) (v : T) :
    s.insert e v =
      ⟨sparse_write s.pages e (some s.dense_entities.length),
       s.dense_entities ++ [e], s.components ++ [v]⟩ := by
  unfold SparseSet.insert
  rw [if_neg (by simp [hc])]

theorem insert_dense {T : Type} {s : SparseSet T} (hwf : SSWF s) (e : Nat) (v : T) :
    (s.insert e v).dense_entities =
      if s.contains e then s.dense_entities else s.dense_entities ++ [e] := by
  by_cases hc : s.contains e = true
  · obtain ⟨idx, hs, _⟩ := contains_true_elim hc
    rw [insert_spec_overwrite hc hs v, if_pos hc]
  · have hc' : s.contains e = false := by simpa using hc
    rw [insert_spec_new hc' v, if_neg hc]

theorem SSWF_insert {T : Type} {s : SparseSet T} (hwf : SSWF s) (e : Nat) (v : T) :
    SSWF (s.insert e v) := by
  by_cases hc : s.contains e = true
  · obtain ⟨idx, hs, hd⟩ := contains_true_elim hc
    rw [insert_spec_overwrite hc hs v]
    refine ⟨hwf.pagesWF, ?_, hwf.denseToSparse, hwf.sparseToDense⟩
    rw [List.length_set]
    exact hwf.lenEq
  · have hc' : s.contains e = false := by simpa using hc
    have hsv : sval s.pages e = none := sval_eq_none_of_not_contains hwf hc'
    rw [insert_spec_new hc' v]
    refine ⟨sparse_write_pagesWF hwf.pagesWF e _, ?_, ?_, ?_⟩
    · simp only [List.length_append, List.length_singleton]
      rw [hwf.lenEq]
    · intro i k hik
      rcases Nat.lt_trichotomy i s.dense_entities.length with hlt | heq | hgt
      · rw [List.getElem?_append_left hlt] at hik
        have hke : k ≠ e := by
          intro hke
          subst hke
          rw [hwf.denseToSparse i k hik] at hsv
          cases hsv
        rw [sval_write_other hwf.pagesWF hke _]
        exact hwf.denseToSparse i k hik
      · subst heq
        rw [List.getElem?_concat_length] at hik
        cases hik
        rw [sval_write_self hwf.pagesWF]
      · rw [List.getElem?_eq_none (by simp; omega)] at hik
        cases hik
    · intro k i hk
      by_cases hke : k = e
      · subst hke
        rw [sval_write_self hwf.pagesWF] at hk
        cases hk
        exact List.getElem?_concat_length _ _
      · rw [sval_write_other hwf.pagesWF hke _] at hk
        have := hwf.sparseToDense k i hk
        rcases List.getElem?_eq_some_iff.1 this with ⟨hl, _⟩
        rw [List.getElem?_append_left hl]
        exact this

theorem contains_insert {T : Type} {s : SparseSet T} (hwf : SSWF s) (e : Nat)
    (v : T) (k : Nat) : (s.insert e v).contains k = (s.contains k || k == e) := by
  have h1 := contains_iff_mem (SSWF_insert hwf e v) k
  rw [insert_dense hwf e v] at h1
  by_cases hc : s.contains e = true
  · rw [if_pos hc] at h1
    by_cases hk : s.contains k = true
    · rw [hk]
      simp only [Bool.true_or]
      exact h1.2 ((contains_iff_mem hwf k).1 hk)
    · have hk' : s.contains k = false := by simpa using hk
      rw [hk']
      simp only [Bool.false_or]
      by_cases hke : k = e
      · subst hke
        rw [hk'] at hc
        cases hc
      · have hmem : ¬ k ∈ s.dense_entities := fun hm => hk ((contains_iff_mem hwf k).2 hm)
        have hfalse : (s.insert e v).contains k = false := by
          cases hcc : (s.insert e v).contains k with
          | false => rfl
          | true => exact absurd (h1.1 hcc) hmem
        rw [hfalse]
        symm
        simp [hke]
  · have hc' : s.contains e = false := by simpa using hc
    rw [if_neg hc] at h1
    rw [List.mem_append, List.mem_singleton, ← contains_iff_mem hwf k] at h1
    by_cases hk2 : (s.contains k || k == e) = true
    · rw [hk2]
      refine h1.2 ?_
      have hor : s.contains k = true ∨ k = e := by simpa using hk2
      exact hor
    · have hk2' : (s.contains k || k == e) = false := by simpa using hk2
      rw [hk2']
      have hnot : ¬ (s.contains k = true ∨ k = e) := by simpa using hk2
      cases hcc : (s.insert e v).contains k with
      | false => rfl
      | true => exact absurd (h1.1 hcc) hnot

theorem erase_not_contained {T : Type} {s : SparseSet T} {e : Nat}
    (hc : s.contains e = false) : s.erase e = s := by
  unfold SparseSet.erase
  rw [if_neg (by simp [hc])]

theorem dense_inj {T : Type} {s : SparseSet T} (hwf : SSWF s) {i j k : Nat}
    (hi : s.dense_entities[i]? = some k) (hj : s.dense_entities[j]? = some k) :
    i = j := by
  have h1 := hwf.denseToSparse i k hi
  have h2 := hwf.denseToSparse j k hj
  rw [h1] at h2
  cases h2
  rfl

theorem erase_data {T : Type} {s : SparseSet T} (hwf : SSWF s) {e : Nat}
    (hc : s.contains e = true) :
    ∃ idx last_e last_c,
      sval s.pages e = some idx ∧
      s.dense_entities[idx]? = some e ∧
      idx < s.dense_entities.length ∧
      s.dense_entities[s.dense_entities.length - 1]? = some last_e ∧
      s.components[s.dense_entities.length - 1]? = some last_c ∧
      s.erase e =
        ⟨sparse_write (sparse_write s.pages last_e (some idx)) e none,
         (s.dense_entities.set idx last_e).dropLast,
         (s.components.set idx last_c).dropLast⟩ := by
  obtain ⟨idx, hs, hd⟩ := contains_true_elim hc
  have hlt : idx < s.dense_entities.length := by
    rcases List.getElem?_eq_some_iff.1 hd with ⟨hl, _⟩
    exact hl
  have hpos : 0 < s.dense_entities.length := Nat.lt_of_le_of_lt (Nat.zero_le _) hlt
  have hll : s.dense_entities.length - 1 < s.dense_entities.length := by omega
  have hdl : s.dense_entities[s.dense_entities.length - 1]? =
      some (s.dense_entities.get ⟨s.dense_entities.length - 1, hll⟩) :=
    List.getElem?_eq_getElem hll
  have hllc : s.dense_entities.length - 1 < s.components.length := by
    rw [hwf.lenEq]; exact hll
  have hcl : s.components[s.dense_entities.length - 1]? =
      some (s.components.get ⟨s.dense_entities.length - 1, hllc⟩) :=
    List.getElem?_eq_getElem hllc
  refine ⟨idx, _, _, hs, hd, hlt, hdl, hcl, ?_⟩
  unfold SparseSet.erase
  rw [if_pos hc, hs, hdl, hcl]

theorem erase_sval {T : Type} {s : SparseSet T} (hwf : SSWF s)
    {idx : Nat} (e last_e : Nat) (k : Nat) :
    sval (sparse_write (sparse_write s.pages last_e (some idx)) e none) k =
      (if k = e then none else if k = last_e then some idx else sval s.pages k) := by
  by_cases hke : k = e
  · subst hke
    rw [if_pos rfl]
    exact sval_write_self (sparse_write_pagesWF hwf.pagesWF _ _) k none
  · rw [if_neg hke, sval_write_other (sparse_write_pagesWF hwf.pagesWF _ _) hke none]
    by_cases hkl : k = last_e
    · subst hkl
      rw [if_pos rfl]
      exact sval_write_self hwf.pagesWF k _
    · rw [if_neg hkl]
      exact sval_write_other hwf.pagesWF hkl _

theorem erase_dense_getElem {T : Type} {s : SparseSet T} {idx last_e : Nat}
    (hlt : idx < s.dense_entities.length) (j : Nat) :
    ((s.dense_entities.set idx last_e).dropLast)[j]? =
      (if j < s.dense_entities.length - 1 then
        (if idx = j then some last_e else s.dense_entities[j]?) else none) := by
  rw [List.getElem?_dropLast, List.length_set]
  by_cases hj : j < s.dense_entities.length - 1
  · rw [if_pos hj, if_pos hj, List.getElem?_set]
    by_cases hij : idx = j
    · have hjl : j < s.dense_entities.length := by omega
      simp only [hij, if_pos rfl, hjl, if_true]
    · simp [hij]
  · rw [if_neg hj, if_neg hj]

set_option maxHeartbeats 1000000 in
theorem SSWF_erase {T : Type} {s : SparseSet T} (hwf : SSWF s) (e : Nat) :
    SSWF (s.erase e) := by
  by_cases hc : s.contains e = true
  · obtain ⟨idx, last_e, last_c, hs, hd, hlt, hdl, hcl, heq⟩ := erase_data hwf hc
    rw [heq]
    have hn := hwf.lenEq
    refine ⟨?_, ?_, ?_, ?_⟩
    · exact sparse_write_pagesWF (sparse_write_pagesWF hwf.pagesWF _ _) _ _
    · simp only [List.length_dropLast, List.length_set]
      rw [hn]
    · intro j k hjk
      show sval (sparse_write (sparse_write s.pages last_e (some idx)) e none) k = some j
      rw [erase_sval hwf e last_e k]
      rw [erase_dense_getElem hlt j] at hjk
      by_cases hj : j < s.dense_entities.length - 1
      · rw [if_pos hj] at hjk
        by_cases hij : idx = j
        · rw [if_pos hij] at hjk
          have hkl : last_e = k := by injection hjk
          rw [← hkl]
          have hle : last_e ≠ e := by
            intro hkeq
            rw [hkeq] at hdl
            have := dense_inj hwf hd hdl
            omega
          rw [if_neg hle, if_pos rfl, hij]
        · rw [if_neg hij] at hjk
          have hke : k ≠ e := by
            intro hke
            subst hke
            exact hij (dense_inj hwf hd hjk)
          have hkl : k ≠ last_e := by
            intro hkl
            subst hkl
            have := dense_inj hwf hjk hdl
            omega
          rw [if_neg hke, if_neg hkl]
          exact hwf.denseToSparse j k hjk
      · rw [if_neg hj] at hjk
        cases hjk
    · intro k j hkj
      have hkj' : (if k = e then none else if k = last_e then some idx
          else sval s.pages k) = some j := by
        rw [← erase_sval hwf e last_e k]
        exact hkj
      show ((s.dense_entities.set idx last_e).dropLast)[j]? = some k
      rw [erase_dense_getElem hlt j]
      by_cases hke : k = e
      · rw [if_pos hke] at hkj'
        cases hkj'
      · rw [if_neg hke] at hkj'
        by_cases hkl : k = last_e
        · rw [if_pos hkl] at hkj'
          have hji : idx = j := by injection hkj'
          have hle : last_e ≠ e := fun hleq => hke (hkl.trans hleq)
          have hne : idx ≠ s.dense_entities.length - 1 := by
            intro hidx
            rw [hidx] at hd
            rw [hd] at hdl
            injection hdl with hdl'
            exact hle hdl'.symm
          rw [if_pos (show j < s.dense_entities.length - 1 by omega), if_pos hji, hkl]
        · rw [if_neg hkl] at hkj'
          have hdk := hwf.sparseToDense k j hkj'
          have hjlt : j < s.dense_entities.length := by
            rcases List.getElem?_eq_some_iff.1 hdk with ⟨hl, _⟩
            exact hl
          have hjne : j ≠ s.dense_entities.length - 1 := by
            intro hj2
            rw [hj2, hdl] at hdk
            injection hdk with hdk'
            exact hkl hdk'.symm
          have hij : idx ≠ j := by
            intro hij2
            rw [← hij2, hd] at hdk
            injection hdk with hdk'
            exact hke hdk'.symm
          rw [if_pos (show j < s.dense_entities.length - 1 by omega), if_neg hij]
          exact hdk
  · have hc' : s.contains e = false := by simpa using hc
    rw [erase_not_contained hc']
    exact hwf

theorem bool_eq_of_iff {a b : Bool} (h : a = true ↔ b = true) : a = b := by
  cases a <;> cases b <;> simp_all

theorem getv_not_contains {T : Type} {s : SparseSet T} (hwf : SSWF s) {k : Nat}
    (h : s.contains k = false) : s.getv k = none := by
  unfold SparseSet.getv
  rw [sval_eq_none_of_not_contains hwf h]

theorem getv_insert_self {T : Type} {s : SparseSet T} (hwf : SSWF s) (e : Nat)
    (v : T) : (s.insert e v).getv e = some v := by
  by_cases hc : s.contains e = true
  · obtain ⟨idx, hs, hd⟩ := contains_true_elim hc
    have heq := insert_spec_overwrite hc hs v
    have hpg : (s.insert e v).pages = s.pages := by rw [heq]
    have hco : (s.insert e v).components = s.components.set idx v := by rw [heq]
    unfold SparseSet.getv
    rw [hpg, hco, hs]
    show (s.components.set idx v)[idx]? = some v
    have hlt : idx < s.components.length := by
      rw [hwf.lenEq]
      rcases List.getElem?_eq_some_iff.1 hd with ⟨hl, _⟩
      exact hl
    exact List.getElem?_set_self hlt
  · have hc' : s.contains e = false := by simpa using hc
    have heq := insert_spec_new hc' v
    have hpg : (s.insert e v).pages =
        sparse_write s.pages e (some s.dense_entities.length) := by rw [heq]
    have hco : (s.insert e v).components = s.components ++ [v] := by rw [heq]
    unfold SparseSet.getv
    rw [hpg, hco, sval_write_self hwf.pagesWF]
    show (s.components ++ [v])[s.dense_entities.length]? = some v
    rw [← hwf.lenEq]
    exact List.getElem?_concat_length _ _

theorem getv_insert_other {T : Type} {s : SparseSet T} (hwf : SSWF s)
    {e k : Nat} (hke : k ≠ e) (v : T) : (s.insert e v).getv k = s.getv k := by
  by_cases hc : s.contains e = true
  · obtain ⟨idx, hs, hd⟩ := contains_true_elim hc
    have heq := insert_spec_overwrite hc hs v
    have hpg : (s.insert e v).pages = s.pages := by rw [heq]
    have hco : (s.insert e v).components = s.components.set idx v := by rw [heq]
    unfold SparseSet.getv
    rw [hpg, hco]
    cases h3 : sval s.pages k with
    | none => rfl
    | some i =>
      show (s.components.set idx v)[i]? = s.components[i]?
      have hdk := hwf.sparseToDense k i h3
      have hil : idx ≠ i := by
        intro hil
        rw [← hil, hd] at hdk
        injection hdk with hdk'
        exact hke hdk'.symm
      exact List.getElem?_set_ne hil
  · have hc' : s.contains e = false := by simpa using hc
    have heq := insert_spec_new hc' v
    have hpg : (s.insert e v).pages =
        sparse_write s.pages e (some s.dense_entities.length) := by rw [heq]
    have hco : (s.insert e v).components = s.components ++ [v] := by rw [heq]
    unfold SparseSet.getv
    rw [hpg, hco, sval_write_other hwf.pagesWF hke]
    cases h3 : sval s.pages k with
    | none => rfl
    | some i =>
      show (s.components ++ [v])[i]? = s.components[i]?
      have hdk := hwf.sparseToDense k i h3
      have hil : i < s.components.length := by
        rw [hwf.lenEq]
        rcases List.getElem?_eq_some_iff.1 hdk with ⟨hl, _⟩
        exact hl
      exact List.getElem?_append_left hil

theorem mem_erase_dense {T : Type} {s : SparseSet T} (hwf : SSWF s) {e : Nat}
    (hc : s.contains e = true) (k : Nat) :
    k ∈ (s.erase e).dense_entities ↔ (k ∈ s.dense_entities ∧ k ≠ e) := by
  obtain ⟨idx, last_e, last_c, hs, hd, hlt, hdl, hcl, heq⟩ := erase_data hwf hc
  have hde : (s.erase e).dense_entities = (s.dense_entities.set idx last_e).dropLast := by
    rw [heq]
  rw [hde]
  constructor
  · intro hm
    obtain ⟨j, hj⟩ := List.mem_iff_getElem?.1 hm
    rw [erase_dense_getElem hlt j] at hj
    by_cases hjl : j < s.dense_entities.length - 1
    · rw [if_pos hjl] at hj
      by_cases hij : idx = j
      · rw [if_pos hij] at hj
        have hkl : last_e = k := by injection hj
        constructor
        · rw [← hkl]
          exact List.mem_iff_getElem?.2 ⟨_, hdl⟩
        · intro hke
          have hdl2 : s.dense_entities[s.dense_entities.length - 1]? = some e := by
            rw [hdl, hkl, hke]
          have := dense_inj hwf hd hdl2
          omega
      · rw [if_neg hij] at hj
        refine ⟨List.mem_iff_getElem?.2 ⟨_, hj⟩, ?_⟩
        intro hke
        rw [hke] at hj
        exact hij (dense_inj hwf hd hj)
    · rw [if_neg hjl] at hj
      cases hj
  · rintro ⟨hm, hke⟩
    obtain ⟨i, hi⟩ := List.mem_iff_getElem?.1 hm
    have hii : i ≠ idx := by
      intro hii
      rw [hii, hd] at hi
      injection hi with hi'
      exact hke hi'.symm
    have hilt : i < s.dense_entities.length := by
      rcases List.getElem?_eq_some_iff.1 hi with ⟨hl, _⟩
      exact hl
    by_cases hlast : i = s.dense_entities.length - 1
    · have hkl : last_e = k := by
        rw [hlast, hdl] at hi
        injection hi
      have hne : idx ≠ s.dense_entities.length - 1 := by
        intro hidx
        exact hii (hlast.trans hidx.symm)
      refine List.mem_iff_getElem?.2 ⟨idx, ?_⟩
      rw [erase_dense_getElem hlt idx,
        if_pos (show idx < s.dense_entities.length - 1 by omega), if_pos rfl, hkl]
    · refine List.mem_iff_getElem?.2 ⟨i, ?_⟩
      rw [erase_dense_getElem hlt i,
        if_pos (show i < s.dense_entities.length - 1 by omega),
        if_neg (fun hc2 => hii hc2.symm)]
      exact hi

theorem contains_erase {T : Type} {s : SparseSet T} (hwf : SSWF s) (e k : Nat) :
    (s.erase e).contains k = (s.contains k && (k != e)) := by
  by_cases hc : s.contains e = true
  · apply bool_eq_of_iff
    rw [contains_iff_mem (SSWF_erase hwf e) k, mem_erase_dense hwf hc k,
      ← contains_iff_mem hwf k]
    simp [Bool.and_eq_true, bne_iff_ne]
  · have hc' : s.contains e = false := by simpa using hc
    rw [erase_not_contained hc']
    by_cases hke : k = e
    · rw [hke, hc']
      simp
    · have : (k != e) = true := bne_iff_ne.mpr hke
      rw [this, Bool.and_true]

theorem size_erase {T : Type} {s : SparseSet T} (hwf : SSWF s) (e : Nat) :
    (s.erase e).size = if s.contains e then s.size - 1 else s.size := by
  by_cases hc : s.contains e = true
  · obtain ⟨idx, last_e, last_c, hs, hd, hlt, hdl, hcl, heq⟩ := erase_data hwf hc
    rw [if_pos hc]
    unfold SparseSet.size
    rw [heq]
    show ((s.dense_entities.set idx last_e).dropLast).length = _
    rw [List.length_dropLast, List.length_set]
  · have hc' : s.contains e = false := by simpa using hc
    rw [erase_not_contained hc', if_neg hc]

theorem getv_erase_self {T : Type} {s : SparseSet T} (hwf : SSWF s) (e : Nat) :
    (s.erase e).getv e = none := by
  by_cases hc : s.contains e = true
  · obtain ⟨idx, last_e, last_c, hs, hd, hlt, hdl, hcl, heq⟩ := erase_data hwf hc
    have hpg : (s.erase e).pages =
        sparse_write (sparse_write s.pages last_e (some idx)) e none := by rw [heq]
    have h2 : sval (sparse_write (sparse_write s.pages last_e (some idx)) e none) e
        = none := by
      rw [erase_sval hwf e last_e e, if_pos rfl]
    unfold SparseSet.getv
    rw [hpg, h2]
  · have hc' : s.contains e = false := by simpa using hc
    rw [erase_not_contained hc']
    exact getv_not_contains hwf hc'

theorem getv_erase_other {T : Type} {s : SparseSet T} (hwf : SSWF s)
    {e k : Nat} (hke : k ≠ e) : (s.erase e).getv k = s.getv k := by
  by_cases hc : s.contains e = true
  · obtain ⟨idx, last_e, last_c, hs, hd, hlt, hdl, hcl, heq⟩ := erase_data hwf hc
    have hpg : (s.erase e).pages =
        sparse_write (sparse_write s.pages last_e (some idx)) e none := by rw [heq]
    have hco : (s.erase e).components = (s.components.set idx last_c).dropLast := by
      rw [heq]
    have hn := hwf.lenEq
    unfold SparseSet.getv
    rw [hpg, hco, erase_sval hwf e last_e k, if_neg hke]
    by_cases hkl : k = last_e
    · rw [if_pos hkl]
      have hne : idx ≠ s.dense_entities.length - 1 := by
        intro hidx
        rw [hidx] at hd
        rw [hd] at hdl
        injection hdl with hdl'
        exact hke (hkl.trans hdl'.symm)
      show ((s.components.set idx last_c).dropLast)[idx]? = _
      rw [List.getElem?_dropLast, List.length_set,
        if_pos (show idx < s.components.length - 1 by omega),
        List.getElem?_set_self (show idx < s.components.length by omega), hkl,
        hwf.denseToSparse _ last_e hdl]
      exact hcl.symm
    · rw [if_neg hkl]
      cases h3 : sval s.pages k with
      | none => rfl
      | some i =>
        have hdk := hwf.sparseToDense k i h3
        have hilt : i < s.dense_entities.length := by
          rcases List.getElem?_eq_some_iff.1 hdk with ⟨hl, _⟩
          exact hl
        have hii : idx ≠ i := by
          intro hii
          rw [← hii, hd] at hdk
          injection hdk with hdk'
          exact hke hdk'.symm
        have hine : i ≠ s.dense_entities.length - 1 := by
          intro hi2
          rw [hi2, hdl] at hdk
          injection hdk with hdk'
          exact hkl hdk'.symm
        show ((s.components.set idx last_c).dropLast)[i]? = s.components[i]?
        rw [List.getElem?_dropLast, List.length_set,
          if_pos (show i < s.components.length - 1 by omega),
          List.getElem?_set_ne hii]
  · have hc' : s.contains e = false := by simpa using hc
    rw [erase_not_contained hc']

/-! ## ECS (src/engine/ecs.h)

Component types are identified by numeric type tags (standing for C++
`std::type_index`); all component value types are represented in one value
type `V` (the per-type C++ storages are type-erased behind `IStorageBase`).
`std::unordered_map` becomes an association list in insertion order.
`versions[e.index]++` is modelled as `+ 1` on `Nat`: for `uint32_t` the
increment also never maps a value to itself modulo `2^32`, which is the
only property the code relies on. -/

/-- Entity handle: `index` + `version` (the C++ `struct Entity`). -/
structure Entity where
  index : Nat
  version : Nat
deriving DecidableEq, Repr

/-- `INVALID_ENTITY = {UINT32_MAX, UINT32_MAX}`. -/
def INVALID_ENTITY : Entity := ⟨2 ^ 32 - 1, 2 ^ 32 - 1⟩

/-- `BitMaskHelper::BLOCK_BITS = 64`. -/
def BLOCK_BITS : Nat := 64

/-- `BitMaskHelper::blocks_for_bits`. -/
def blocks_for_bits (bits : Nat) : Nat := (bits + BLOCK_BITS - 1) / BLOCK_BITS

/-- `Storage<T>`: the compact component id plus the sparse set. -/
structure Storage (V : Type) where
  comp_id : Nat
  set : SparseSet V

/-- The `ECS` registry state. -/
structure ECS (V : Type) where
  type_to_id : List (Nat × Nat)
  component_count : Nat
  component_storages : List (Nat × Storage V)
  versions : List Nat
  free_list : List Nat
  entity_masks : List Nat
  mask_blocks : Nat

/-- `ECS()` constructor: everything empty, `component_count = mask_blocks = 0`. -/
def ECS.empty (V : Type) : ECS V := ⟨[], 0, [], [], [], [], 0⟩

/-- `type_to_id.find(...)`. -/
def ECS.lookupId {V : Type} (w : ECS V) (t : Nat) : Option Nat :=
  List.lookup t w.type_to_id

/-- `component_storages.find(...)` (the `get_storage<T>` lookup). -/
def ECS.lookupStorage {V : Type} (w : ECS V) (t : Nat) : Option (Storage V) :=
  List.lookup t w.component_storages

/-- `std::vector<uint64_t>::resize(n, 0)` (also truncating, as `resize` does). -/
def listResize (l : List Nat) (n : Nat) : List Nat :=
  if n ≤ l.length then l.take n else l ++ List.replicate (n - l.length) 0

/-- Read mask word `b` of entity slot `ei` from the flat mask array
(`entity_masks[ei * mask_blocks + b]`). -/
def ECS.emask {V : Type} (w : ECS V) (ei b : Nat) : Nat :=
  w.entity_masks.getD (ei * w.mask_blocks + b) 0

/-- `BitMaskHelper::test_bit` on entity `ei`'s mask: bit `c` of the flat
mask row, i.e. bit `c % 64` of word `c / 64`. -/
def ECS.test_entity_bit {V : Type} (w : ECS V) (ei c : Nat) : Bool :=
  (w.emask ei (c / BLOCK_BITS)).testBit (c % BLOCK_BITS)

/-- Bit `bit` of a group/required mask vector. -/
def test_vec_bit (mv : List Nat) (bit : Nat) : Bool :=
  (mv.getD (bit / BLOCK_BITS) 0).testBit (bit % BLOCK_BITS)

/-- `ensure_entity_mask_size(entities)`. -/
def ECS.ensure_entity_mask_size {V : Type} (w : ECS V) (entities : Nat) : ECS V :=
  if w.mask_blocks = 0 then
    { w with entity_masks := listResize w.entity_masks (entities * w.mask_blocks) }
  else if w.entity_masks.length < entities * w.mask_blocks then
    { w with entity_masks := listResize w.entity_masks (entities * w.mask_blocks) }
  else w

/-- Inner copy loop of `expand_masks_for_new_component`: copy entity `ent`'s
`old_mb` old mask words into its slot in the `new_mb`-wide layout. -/
def copy_entity_blocks (src : List Nat) (old_mb new_mb : Nat) (acc : List Nat)
    (ent : Nat) : List Nat :=
  (List.range old_mb).foldl
    (fun acc2 b => acc2.set (ent * new_mb + b) (src.getD (ent * old_mb + b) 0))
    acc

/-- The whole resize-and-copy of `expand_masks_for_new_component`: a fresh
zero mask array of `n * new_mb` words with each entity's old words copied in
(the explicit zero-fill loop of the source writes zeros over zeros). -/
def copy_masks (src : List Nat) (old_mb new_mb n : Nat) : List Nat :=
  (List.range n).foldl
    (fun acc ent =>
      if 0 < old_mb then copy_entity_blocks src old_mb new_mb acc ent else acc)
    (List.replicate (n * new_mb) 0)

/-- `expand_masks_for_new_component`. -/
def ECS.expand_masks_for_new_component {V : Type} (w : ECS V) : ECS V :=
  if blocks_for_bits w.component_count = w.mask_blocks then w
  else
    { w with
      entity_masks :=
        copy_masks w.entity_masks w.mask_blocks
          (blocks_for_bits w.component_count) w.versions.length,
      mask_blocks := blocks_for_bits w.component_count }

/-- `component_id<T>()`: look the tag up, else assign the next id and expand
the masks. -/
def ECS.component_id {V : Type} (w : ECS V) (t : Nat) : Nat × ECS V :=
  match List.lookup t w.type_to_id with
  | some id => (id, w)
  | none =>
    (w.component_count,
      ECS.expand_masks_for_new_component
        { w with
          component_count := w.component_count + 1,
          type_to_id := w.type_to_id ++ [(t, w.component_count)] })

/-- `is_alive(e)`. -/
def ECS.is_alive {V : Type} (w : ECS V) (e : Entity) : Bool :=
  e.index < w.versions.length && w.versions.getD e.index 0 == e.version

/-- `create_entity()`: recycle the back of the free list, else append a new
slot with version 1; in both branches grow the mask array to cover the slot. -/
def ECS.create_entity {V : Type} (w : ECS V) : Entity × ECS V :=
  match w.free_list.getLast? with
  | some idx =>
    (⟨idx, w.versions.getD idx 0⟩,
      ECS.ensure_entity_mask_size { w with free_list := w.free_list.dropLast }
        (idx + 1))
  | none =>
    (⟨w.versions.length, 1⟩,
      ECS.ensure_entity_mask_size { w with versions := w.versions ++ [1] }
        (w.versions.length + 1))

/-- The mask-zeroing loop of `destroy_entity`. -/
def clear_mask (masks : List Nat) (start blocks : Nat) : List Nat :=
  (List.range blocks).foldl (fun m b => m.set (start + b) 0) masks

/-- `destroy_entity(e)`: no-op unless live; else bump the slot version, erase
`e.index` from every storage, zero the mask row, push the index on the free
list. -/
def ECS.destroy_entity {V : Type} (w : ECS V) (e : Entity) : ECS V :=
  if w.is_alive e then
    { w with
      versions := w.versions.set e.index (w.versions.getD e.index 0 + 1),
      component_storages := w.component_storages.map
        (fun p => (p.1, ⟨p.2.comp_id, p.2.set.erase e.index⟩)),
      entity_masks :=
        if 0 < w.mask_blocks then
          clear_mask w.entity_masks (e.index * w.mask_blocks) w.mask_blocks
        else w.entity_masks,
      free_list := w.free_list ++ [e.index] }
  else w

/-- `set_entity_bit(ent_index, comp_id)`. -/
def ECS.set_entity_bit {V : Type} (w : ECS V) (ei c : Nat) : ECS V :=
  if w.component_count ≤ c then w
  else
    match
      ECS.ensure_entity_mask_size
        (if blocks_for_bits w.component_count ≠ w.mask_blocks then
          w.expand_masks_for_new_component
        else w)
        (if blocks_for_bits w.component_count ≠ w.mask_blocks then
          w.expand_masks_for_new_component
        else w).versions.length
    with
    | w2 =>
      { w2 with
        entity_masks :=
          w2.entity_masks.set (ei * w2.mask_blocks + c / BLOCK_BITS)
            ((w2.entity_masks.getD (ei * w2.mask_blocks + c / BLOCK_BITS) 0) |||
              (1 <<< (c % BLOCK_BITS))) }

/-- `reset_entity_bit(ent_index, comp_id)` (`&= ~(1 << bit)` on the word). -/
def ECS.reset_entity_bit {V : Type} (w : ECS V) (ei c : Nat) : ECS V :=
  if w.mask_blocks = 0 then w
  else
    { w with
      entity_masks :=
        w.entity_masks.set (ei * w.mask_blocks + c / BLOCK_BITS)
          ((w.entity_masks.getD (ei * w.mask_blocks + c / BLOCK_BITS) 0) &&&
            ((2 ^ BLOCK_BITS - 1) ^^^ (1 <<< (c % BLOCK_BITS)))) }

/-- In-place update of the storage registered for tag `t` (the C++ code
mutates through the `Storage<T>*`). -/
def ECS.updateStorage {V : Type} (w : ECS V) (t : Nat) (st : Storage V) : ECS V :=
  { w with
    component_storages :=
      w.component_storages.map (fun p => if p.1 = t then (t, st) else p) }

/-- `get_or_create_storage<T>()`. -/
def ECS.get_or_create_storage {V : Type} (w : ECS V) (t : Nat) :
    Storage V × ECS V :=
  match List.lookup t w.component_storages with
  | some st => (st, w)
  | none =>
    match ECS.component_id w t with
    | (cid, w1) =>
      (⟨cid, SparseSet.empty V⟩,
        { w1 with
          component_storages :=
            w1.component_storages ++ [(t, ⟨cid, SparseSet.empty V⟩)] })

/-- `add<T>(e, value)`.  The source asserts `is_alive(e)`; executions (the
`Reachable` relation below) only take this step on live entities. -/
def ECS.add {V : Type} (w : ECS V) (e : Entity) (t : Nat) (v : V) : ECS V :=
  match w.get_or_create_storage t with
  | (st, w1) =>
    (ECS.updateStorage w1 t ⟨st.comp_id, st.set.insert e.index v⟩).set_entity_bit
      e.index st.comp_id

/-- `has<T>(e)`. -/
def ECS.has {V : Type} (w : ECS V) (e : Entity) (t : Nat) : Bool :=
  if w.is_alive e then
    match List.lookup t w.component_storages with
    | none => false
    | some st => st.set.contains e.index
  else false

/-- `get<T>(e)` (named `get_comp` here): creates the storage if absent, then
looks the component up; `none` models the `SparseSet::get` contract failure. -/
def ECS.get_comp {V : Type} (w : ECS V) (e : Entity) (t : Nat) :
    Option V × ECS V :=
  match w.get_or_create_storage t with
  | (st, w1) => (st.set.getv e.index, w1)

/-- `remove<T>(e)`. -/
def ECS.remove {V : Type} (w : ECS V) (e : Entity) (t : Nat) : ECS V :=
  if w.is_alive e then
    match List.lookup t w.component_storages with
    | none => w
    | some st =>
      (ECS.updateStorage w t ⟨st.comp_id, st.set.erase e.index⟩).reset_entity_bit
        e.index st.comp_id
  else w

/-- `Group`: a precomputed required mask. -/
structure Group where
  required_mask : List Nat

/-- `set_bit_in_mask(mask_vec, bit)`: grow the vector to hold the word, set
the bit. -/
def set_bit_in_mask (mv : List Nat) (bit : Nat) : List Nat :=
  match
    (if mv.length ≤ bit / BLOCK_BITS then
      mv ++ List.replicate (bit / BLOCK_BITS + 1 - mv.length) 0
    else mv)
  with
  | mv2 =>
    mv2.set (bit / BLOCK_BITS)
      ((mv2.getD (bit / BLOCK_BITS) 0) ||| (1 <<< (bit % BLOCK_BITS)))

/-- One step of the `set_bit_in_mask(mask, component_id<C>())` fold
expression used by `create_group` and `view`. -/
def maskFoldStep {V : Type} (acc : List Nat × ECS V) (t : Nat) :
    List Nat × ECS V :=
  match ECS.component_id acc.2 t with
  | (cid, w2) => (set_bit_in_mask acc.1 cid, w2)

/-- `create_group<Components...>()`: start from `mask_blocks` zero words,
then fold `set_bit_in_mask(g, component_id<C>())` over the type list (ids
may be freshly assigned, mutating the registry). -/
def ECS.create_group {V : Type} (w : ECS V) (tags : List Nat) : Group × ECS V :=
  match tags.foldl maskFoldStep (List.replicate w.mask_blocks 0, w) with
  | (mv, w1) => (⟨mv⟩, w1)

/-- `matches_group(e, g)`: dead entities never match; a group whose mask
width differs from the current `mask_blocks` is compared on the common
prefix, and any required bit beyond it fails the match. -/
def ECS.matches_group {V : Type} (w : ECS V) (e : Entity) (g : Group) : Bool :=
  if w.is_alive e then
    if g.required_mask.length ≠ w.mask_blocks then
      (List.range (min g.required_mask.length w.mask_blocks)).all
        (fun i =>
          (w.emask e.index i &&& g.required_mask.getD i 0) ==
            g.required_mask.getD i 0) &&
      (List.range' (min g.required_mask.length w.mask_blocks)
          (g.required_mask.length - min g.required_mask.length w.mask_blocks)).all
        (fun i => g.required_mask.getD i 0 == 0)
    else
      (List.range w.mask_blocks).all
        (fun i =>
          (w.emask e.index i &&& g.required_mask.getD i 0) ==
            g.required_mask.getD i 0)
  else false

/-- `BitMaskHelper::test_mask_match` against entity `ei`'s flat mask row. -/
def ECS.mask_match_row {V : Type} (w : ECS V) (ei : Nat) (req : List Nat) : Bool :=
  (List.range w.mask_blocks).all
    (fun b => (w.emask ei b &&& req.getD b 0) == req.getD b 0)

/-- `view<T1, Ts...>(fn)`: returns the list of visits (entity handle plus
the component values fetched for it, `none` marking a failed
`SparseSet::get` precondition) together with the resulting registry state. -/
def ECS.view {V : Type} (w : ECS V) (t1 : Nat) (ts : List Nat) :
    List (Entity × List (Option V)) × ECS V :=
  match List.lookup t1 w.component_storages with
  | none => ([], w)
  | some s1 =>
    if (ts.map (fun t => List.lookup t w.component_storages)).any Option.isNone
    then ([], w)
    else
      match (t1 :: ts).foldl maskFoldStep (List.replicate w.mask_blocks 0, w) with
      | (req, w3) =>
        (((s1 :: ts.filterMap (fun t => List.lookup t w.component_storages)).foldl
            (fun b st => if st.set.size < b.set.size then st else b)
            s1).set.dense_entities.filterMap
          (fun ei =>
            if ECS.mask_match_row w3 ei req then
              some (⟨ei, w3.versions.getD ei 0⟩,
                (t1 :: ts).map (fun t =>
                  match List.lookup t w3.component_storages with
                  | some st => st.set.getv ei
                  | none => none))
            else none), w3)

/-- The executions of the store: every sequence of public operations from a
fresh `ECS()`, with `add` and `get` taken only on live entities (the source
asserts `is_alive` there). -/
inductive Reachable {V : Type} : ECS V → Prop where
  | init : Reachable (ECS.empty V)
  | create {w : ECS V} : Reachable w → Reachable (ECS.create_entity w).2
  | destroy {w : ECS V} (e : Entity) : Reachable w → Reachable (w.destroy_entity e)
  | addStep {w : ECS V} (e : Entity) (t : Nat) (v : V) : Reachable w →
      w.is_alive e = true → Reachable (w.add e t v)
  | removeStep {w : ECS V} (e : Entity) (t : Nat) : Reachable w →
      Reachable (w.remove e t)
  | getStep {w : ECS V} (e : Entity) (t : Nat) : Reachable w →
      w.is_alive e = true → Reachable (w.get_comp e t).2
  | groupStep {w : ECS V} (tags : List Nat) : Reachable w →
      Reachable (w.create_group tags).2
  | viewStep {w : ECS V} (t1 : Nat) (ts : List Nat) : Reachable w →
      Reachable (w.view t1 ts).2

/-! ### Generic helper lemmas (lists, association lists, mask words) -/

theorem getD_set_self {l : List Nat} {p : Nat} (h : p < l.length) (v : Nat) :
    (l.set p v).getD p 0 = v := by
  rw [List.getD_eq_getElem?_getD, List.getElem?_set_self h]
  rfl

theorem getD_set_other {l : List Nat} {p q : Nat} (h : p ≠ q) (v : Nat) :
    (l.set p v).getD q 0 = l.getD q 0 := by
  rw [List.getD_eq_getElem?_getD, List.getElem?_set_ne h,
    ← List.getD_eq_getElem?_getD]

theorem getD_zero_replicate (n p : Nat) : (List.replicate n 0).getD p 0 = 0 := by
  rw [List.getD_eq_getElem?_getD, List.getElem?_replicate]
  split <;> rfl

theorem getD_of_length_le {l : List Nat} {p : Nat} (h : l.length ≤ p) :
    l.getD p 0 = 0 := by
  rw [List.getD_eq_getElem?_getD, List.getElem?_eq_none h]
  rfl

theorem lookup_cons_self {α : Type} (t : Nat) (x : α) (rest : List (Nat × α)) :
    List.lookup t ((t, x) :: rest) = some x := by
  rw [List.lookup_cons]
  have hb : (t == t) = true := by simp
  rw [hb]

theorem lookup_cons_diff {α : Type} {t k : Nat} (h : t ≠ k) (x : α)
    (rest : List (Nat × α)) :
    List.lookup t ((k, x) :: rest) = List.lookup t rest := by
  rw [List.lookup_cons]
  have hb : (t == k) = false := by simp [h]
  rw [hb]

theorem lookup_append_some {α : Type} {l1 : List (Nat × α)} (l2 : List (Nat × α))
    {t : Nat} {y : α} (h : List.lookup t l1 = some y) :
    List.lookup t (l1 ++ l2) = some y := by
  rw [List.lookup_append, h]
  rfl

theorem lookup_append_none {α : Type} {l1 : List (Nat × α)} (l2 : List (Nat × α))
    {t : Nat} (h : List.lookup t l1 = none) :
    List.lookup t (l1 ++ l2) = List.lookup t l2 := by
  rw [List.lookup_append, h]
  rfl

theorem map_if_head_eq {α : Type} {k t : Nat} (hk : k = t) (v x : α) :
    (if (k, v).1 = t then (t, x) else (k, v)) = (t, x) := by
  simp [hk]

theorem map_if_head_ne {α : Type} {k t : Nat} (hk : k ≠ t) (v x : α) :
    (if (k, v).1 = t then (t, x) else (k, v)) = (k, v) := by
  simp [hk]

theorem lookup_map_if_self {α : Type} {l : List (Nat × α)} {t : Nat} (x : α)
    {y : α} (h : List.lookup t l = some y) :
    List.lookup t (l.map (fun p => if p.1 = t then (t, x) else p)) = some x := by
  induction l with
  | nil => simp [List.lookup] at h
  | cons p rest ih =>
    obtain ⟨k, v⟩ := p
    by_cases hk : t = k
    · rw [List.map_cons, map_if_head_eq hk.symm v x, lookup_cons_self]
    · rw [lookup_cons_diff hk] at h
      rw [List.map_cons, map_if_head_ne (fun hc => hk hc.symm) v x,
        lookup_cons_diff hk]
      exact ih h

theorem lookup_map_if_none {α : Type} {l : List (Nat × α)} {t : Nat} (x : α)
    (h : List.lookup t l = none) :
    List.lookup t (l.map (fun p => if p.1 = t then (t, x) else p)) = none := by
  induction l with
  | nil => rfl
  | cons p rest ih =>
    obtain ⟨k, v⟩ := p
    by_cases hk : t = k
    · rw [hk, lookup_cons_self] at h
      cases h
    · rw [lookup_cons_diff hk] at h
      rw [List.map_cons, map_if_head_ne (fun hc => hk hc.symm) v x,
        lookup_cons_diff hk]
      exact ih h

theorem lookup_map_if_other {α : Type} {l : List (Nat × α)} {t t' : Nat}
    (h : t' ≠ t) (x : α) :
    List.lookup t' (l.map (fun p => if p.1 = t then (t, x) else p)) =
      List.lookup t' l := by
  induction l with
  | nil => rfl
  | cons p rest ih =>
    obtain ⟨k, v⟩ := p
    by_cases hkt : k = t
    · rw [List.map_cons, map_if_head_eq hkt v x, lookup_cons_diff h,
        lookup_cons_diff (hkt ▸ h)]
      exact ih
    · rw [List.map_cons, map_if_head_ne hkt v x]
      by_cases hk : t' = k
      · rw [← hk, lookup_cons_self, lookup_cons_self]
      · rw [lookup_cons_diff hk, lookup_cons_diff hk]
        exact ih

theorem lookup_map_if_elim {α : Type} {l : List (Nat × α)} {t t'' : Nat}
    {x y : α}
    (h : List.lookup t'' (l.map (fun p => if p.1 = t then (t, x) else p)) = some y) :
    (t'' = t ∧ y = x) ∨ (t'' ≠ t ∧ List.lookup t'' l = some y) := by
  by_cases he : t'' = t
  · subst he
    cases hl : List.lookup t'' l with
    | none =>
      rw [lookup_map_if_none x hl] at h
      cases h
    | some y0 =>
      rw [lookup_map_if_self x hl] at h
      injection h with h'
      exact Or.inl ⟨rfl, h'.symm⟩
  · rw [lookup_map_if_other he x] at h
    exact Or.inr ⟨he, h⟩

theorem testBit_set_word (x c j : Nat) :
    (x ||| (1 <<< c)).testBit j = (x.testBit j || decide (c = j)) := by
  rw [Nat.testBit_or, Nat.shiftLeft_eq, Nat.one_mul, Nat.testBit_two_pow]

theorem testBit_reset_word (x c j : Nat) (hj : j < BLOCK_BITS) :
    (x &&& ((2 ^ BLOCK_BITS - 1) ^^^ (1 <<< c))).testBit j =
      (x.testBit j && !(decide (c = j))) := by
  rw [Nat.testBit_and, Nat.testBit_xor, Nat.testBit_two_pow_sub_one,
    Nat.shiftLeft_eq, Nat.one_mul, Nat.testBit_two_pow, decide_eq_true hj]
  cases hx : x.testBit j <;> cases hc : decide (c = j) <;> rfl

theorem and_beq_self_iff (x y : Nat) :
    ((x &&& y) == y) = true ↔ (∀ i, y.testBit i = true → x.testBit i = true) := by
  constructor
  · intro h i hi
    have hxy : x &&& y = y := by simpa using h
    have := congrArg (fun z => z.testBit i) hxy
    simp only [Nat.testBit_and] at this
    rw [hi, Bool.and_true] at this
    exact this
  · intro h
    have hxy : x &&& y = y := by
      apply Nat.eq_of_testBit_eq
      intro i
      rw [Nat.testBit_and]
      cases hy : y.testBit i with
      | false => simp
      | true => simp [h i hy]
    simp [hxy]

theorem slot_pos_inj {nmb e1 b1 e2 b2 : Nat} (h1 : b1 < nmb) (h2 : b2 < nmb)
    (he : e1 * nmb + b1 = e2 * nmb + b2) : e1 = e2 ∧ b1 = b2 := by
  have hn : 0 < nmb := Nat.lt_of_le_of_lt (Nat.zero_le _) h1
  have d1 : (e1 * nmb + b1) / nmb = e1 := by
    rw [Nat.mul_comm e1 nmb, Nat.mul_add_div hn, Nat.div_eq_of_lt h1, Nat.add_zero]
  have d2 : (e2 * nmb + b2) / nmb = e2 := by
    rw [Nat.mul_comm e2 nmb, Nat.mul_add_div hn, Nat.div_eq_of_lt h2, Nat.add_zero]
  have hee : e1 = e2 := by rw [← d1, ← d2, he]
  refine ⟨hee, ?_⟩
  subst hee
  omega

/-! ### Mask resize-and-copy characterization -/

/-- `copy_entity_blocks` with the loop cut off after `m` of the `old_mb`
iterations (proof device for induction on the loop). -/
def cebAux (src : List Nat) (omb nmb : Nat) (acc : List Nat) (ent m : Nat) :
    List Nat :=
  (List.range m).foldl
    (fun acc2 b => acc2.set (ent * nmb + b) (src.getD (ent * omb + b) 0)) acc

theorem copy_entity_blocks_eq_cebAux (src : List Nat) (omb nmb : Nat)
    (acc : List Nat) (ent : Nat) :
    copy_entity_blocks src omb nmb acc ent = cebAux src omb nmb acc ent omb := rfl

theorem cebAux_succ (src : List Nat) (omb nmb : Nat) (acc : List Nat)
    (ent m : Nat) :
    cebAux src omb nmb acc ent (m + 1) =
      (cebAux src omb nmb acc ent m).set (ent * nmb + m)
        (src.getD (ent * omb + m) 0) := by
  unfold cebAux
  rw [List.range_succ, List.foldl_concat]

theorem cebAux_length (src : List Nat) (omb nmb : Nat) (acc : List Nat)
    (ent : Nat) : ∀ m, (cebAux src omb nmb acc ent m).length = acc.length := by
  intro m
  induction m with
  | zero => rfl
  | succ m ih => rw [cebAux_succ, List.length_set, ih]

theorem cebAux_getD_out (src : List Nat) (omb nmb : Nat) (acc : List Nat)
    (ent : Nat) {p : Nat} :
    ∀ m, (∀ b, b < m → p ≠ ent * nmb + b) →
      (cebAux src omb nmb acc ent m).getD p 0 = acc.getD p 0 := by
  intro m
  induction m with
  | zero => intro _; rfl
  | succ m ih =>
    intro hout
    rw [cebAux_succ,
      getD_set_other (fun hc => hout m (Nat.lt_succ_self m) hc.symm) _]
    exact ih (fun b hb => hout b (Nat.lt_succ_of_lt hb))

theorem cebAux_getD_in (src : List Nat) (omb nmb : Nat) (acc : List Nat)
    (ent : Nat) {b : Nat} :
    ∀ m, b < m → ent * nmb + b < acc.length →
      (cebAux src omb nmb acc ent m).getD (ent * nmb + b) 0 =
        src.getD (ent * omb + b) 0 := by
  intro m
  induction m with
  | zero => intro h; omega
  | succ m ih =>
    intro hb hpos
    rw [cebAux_succ]
    by_cases hbm : b = m
    · subst hbm
      exact getD_set_self (by rw [cebAux_length]; exact hpos) _
    · rw [getD_set_other (by omega) _]
      exact ih (by omega) hpos

/-- `copy_masks` with the outer loop cut off after `m` of the `n` entities. -/
def cmAux (src : List Nat) (omb nmb n m : Nat) : List Nat :=
  (List.range m).foldl
    (fun acc ent =>
      if 0 < omb then copy_entity_blocks src omb nmb acc ent else acc)
    (List.replicate (n * nmb) 0)

theorem copy_masks_eq_cmAux (src : List Nat) (omb nmb n : Nat) :
    copy_masks src omb nmb n = cmAux src omb nmb n n := rfl

theorem cmAux_succ (src : List Nat) (omb nmb n m : Nat) :
    cmAux src omb nmb n (m + 1) =
      (if 0 < omb then copy_entity_blocks src omb nmb (cmAux src omb nmb n m) m
      else cmAux src omb nmb n m) := by
  unfold cmAux
  rw [List.range_succ, List.foldl_concat]

theorem cmAux_length (src : List Nat) (omb nmb n : Nat) :
    ∀ m, (cmAux src omb nmb n m).length = n * nmb := by
  intro m
  induction m with
  | zero => exact List.length_replicate _ _
  | succ m ih =>
    rw [cmAux_succ]
    split
    · rw [copy_entity_blocks_eq_cebAux, cebAux_length]
      exact ih
    · exact ih

theorem cmAux_getD (src : List Nat) {omb nmb n : Nat} (homb : omb ≤ nmb)
    {ei bb : Nat} (hbb : bb < nmb) (hei : ei < n) :
    ∀ m, m ≤ n →
      (cmAux src omb nmb n m).getD (ei * nmb + bb) 0 =
        if ei < m ∧ bb < omb then src.getD (ei * omb + bb) 0 else 0 := by
  intro m
  induction m with
  | zero =>
    intro _
    show (List.replicate (n * nmb) 0).getD (ei * nmb + bb) 0 = _
    rw [getD_zero_replicate, if_neg (show ¬(ei < 0 ∧ bb < omb) by omega)]
  | succ m ih =>
    intro hm
    rw [cmAux_succ]
    by_cases homb0 : 0 < omb
    · rw [if_pos homb0, copy_entity_blocks_eq_cebAux]
      by_cases heim : ei = m
      · subst heim
        by_cases hbo : bb < omb
        · rw [cebAux_getD_in src omb nmb _ ei omb hbo
            (by
              rw [cmAux_length]
              have h1 : (ei + 1) * nmb ≤ n * nmb := Nat.mul_le_mul_right nmb hm
              have h2 : ei * nmb + bb < (ei + 1) * nmb := by
                rw [Nat.succ_mul]
                omega
              omega)]
          rw [if_pos ⟨Nat.lt_succ_self ei, hbo⟩]
        · rw [cebAux_getD_out src omb nmb _ ei omb
            (fun b hb hc => by
              have := (slot_pos_inj hbb (Nat.lt_of_lt_of_le hb homb) hc).2
              omega)]
          rw [ih (by omega), if_neg (show ¬(ei < ei ∧ bb < omb) by omega),
            if_neg (show ¬(ei < ei + 1 ∧ bb < omb) by omega)]
      · rw [cebAux_getD_out src omb nmb _ m omb
          (fun b hb hc => heim (slot_pos_inj hbb (Nat.lt_of_lt_of_le hb homb) hc).1)]
        rw [ih (by omega)]
        by_cases hbo2 : bb < omb
        · by_cases hlt : ei < m
          · rw [if_pos ⟨hlt, hbo2⟩, if_pos ⟨by omega, hbo2⟩]
          · rw [if_neg (show ¬(ei < m ∧ bb < omb) by omega),
              if_neg (show ¬(ei < m + 1 ∧ bb < omb) by omega)]
        · rw [if_neg (show ¬(ei < m ∧ bb < omb) by omega),
            if_neg (show ¬(ei < m + 1 ∧ bb < omb) by omega)]
    · rw [if_neg homb0, ih (by omega),
        if_neg (show ¬(ei < m ∧ bb < omb) by omega),
        if_neg (show ¬(ei < m + 1 ∧ bb < omb) by omega)]

/-! ### Expand / ensure lemmas -/

theorem blocks_mono {a b : Nat} (h : a ≤ b) :
    blocks_for_bits a ≤ blocks_for_bits b := by
  unfold blocks_for_bits BLOCK_BITS
  omega

theorem lt_BLOCK_BITS_mul_blocks {c bits : Nat} (h : c < bits) :
    c < BLOCK_BITS * blocks_for_bits bits := by
  unfold blocks_for_bits BLOCK_BITS at *
  omega

theorem blocks_pos {bits : Nat} (h : 0 < bits) : 0 < blocks_for_bits bits := by
  unfold blocks_for_bits BLOCK_BITS
  omega

theorem expand_noop {V : Type} {w : ECS V}
    (h : blocks_for_bits w.component_count = w.mask_blocks) :
    w.expand_masks_for_new_component = w := by
  unfold ECS.expand_masks_for_new_component
  rw [if_pos h]

theorem expand_versions {V : Type} (w : ECS V) :
    (w.expand_masks_for_new_component).versions = w.versions := by
  unfold ECS.expand_masks_for_new_component
  split <;> rfl

theorem expand_component_count {V : Type} (w : ECS V) :
    (w.expand_masks_for_new_component).component_count = w.component_count := by
  unfold ECS.expand_masks_for_new_component
  split <;> rfl

theorem expand_type_to_id {V : Type} (w : ECS V) :
    (w.expand_masks_for_new_component).type_to_id = w.type_to_id := by
  unfold ECS.expand_masks_for_new_component
  split <;> rfl

theorem expand_storages {V : Type} (w : ECS V) :
    (w.expand_masks_for_new_component).component_storages =
      w.component_storages := by
  unfold ECS.expand_masks_for_new_component
  split <;> rfl

theorem expand_free_list {V : Type} (w : ECS V) :
    (w.expand_masks_for_new_component).free_list = w.free_list := by
  unfold ECS.expand_masks_for_new_component
  split <;> rfl

theorem expand_mask_blocks {V : Type} (w : ECS V) :
    (w.expand_masks_for_new_component).mask_blocks =
      blocks_for_bits w.component_count := by
  unfold ECS.expand_masks_for_new_component
  split
  · next h => exact h.symm
  · rfl

theorem expand_mask_len {V : Type} {w : ECS V}
    (hml : w.entity_masks.length = w.versions.length * w.mask_blocks) :
    (w.expand_masks_for_new_component).entity_masks.length =
      w.versions.length * blocks_for_bits w.component_count := by
  unfold ECS.expand_masks_for_new_component
  split
  · next h => rw [hml, h]
  · show (copy_masks _ _ _ _).length = _
    rw [copy_masks_eq_cmAux, cmAux_length]

theorem expand_emask {V : Type} {w : ECS V}
    (hml : w.entity_masks.length = w.versions.length * w.mask_blocks)
    (homb : w.mask_blocks ≤ blocks_for_bits w.component_count)
    {ei bb : Nat} (hbb : bb < blocks_for_bits w.component_count) :
    (w.expand_masks_for_new_component).emask ei bb =
      if ei < w.versions.length ∧ bb < w.mask_blocks then w.emask ei bb
      else 0 := by
  unfold ECS.expand_masks_for_new_component
  split
  · next h =>
    have hbb' : bb < w.mask_blocks := by rw [← h]; exact hbb
    by_cases hei : ei < w.versions.length
    · rw [if_pos ⟨hei, hbb'⟩]
    · rw [if_neg (by omega)]
      unfold ECS.emask
      apply getD_of_length_le
      rw [hml]
      calc w.versions.length * w.mask_blocks ≤ ei * w.mask_blocks :=
            Nat.mul_le_mul_right _ (by omega)
        _ ≤ ei * w.mask_blocks + bb := Nat.le_add_right _ _
  · show (copy_masks w.entity_masks w.mask_blocks
        (blocks_for_bits w.component_count) w.versions.length).getD
        (ei * blocks_for_bits w.component_count + bb) 0 = _
    rw [copy_masks_eq_cmAux]
    by_cases hei : ei < w.versions.length
    · rw [cmAux_getD w.entity_masks homb hbb hei w.versions.length (Nat.le_refl _)]
      by_cases hbm : bb < w.mask_blocks
      · rw [if_pos ⟨hei, hbm⟩, if_pos ⟨hei, hbm⟩]
        rfl
      · rw [if_neg (by omega), if_neg (by omega)]
    · rw [if_neg (by omega)]
      apply getD_of_length_le
      rw [cmAux_length]
      calc w.versions.length * blocks_for_bits w.component_count
            ≤ ei * blocks_for_bits w.component_count :=
            Nat.mul_le_mul_right _ (by omega)
        _ ≤ ei * blocks_for_bits w.component_count + bb := Nat.le_add_right _ _

theorem expand_test_bit {V : Type} {w : ECS V}
    (hml : w.entity_masks.length = w.versions.length * w.mask_blocks)
    (homb : w.mask_blocks ≤ blocks_for_bits w.component_count)
    {ei c : Nat} (hc : c < BLOCK_BITS * blocks_for_bits w.component_count) :
    (w.expand_masks_for_new_component).test_entity_bit ei c =
      if ei < w.versions.length ∧ c < BLOCK_BITS * w.mask_blocks then
        w.test_entity_bit ei c
      else false := by
  unfold ECS.test_entity_bit
  have hcb : c / BLOCK_BITS < blocks_for_bits w.component_count := by
    unfold BLOCK_BITS at *
    omega
  rw [expand_emask hml homb hcb]
  by_cases hcond : ei < w.versions.length ∧ c / BLOCK_BITS < w.mask_blocks
  · rw [if_pos hcond, if_pos ⟨hcond.1, by
      have := hcond.2
      unfold BLOCK_BITS at *
      omega⟩]
  · rw [if_neg hcond, if_neg (by
      intro hcontra
      exact hcond ⟨hcontra.1, by
        have := hcontra.2
        unfold BLOCK_BITS at *
        omega⟩)]
    exact Nat.zero_testBit _

theorem listResize_grow {l : List Nat} {n : Nat} (h : l.length ≤ n) :
    listResize l n = l ++ List.replicate (n - l.length) 0 := by
  unfold listResize
  by_cases he : n ≤ l.length
  · rw [if_pos he]
    have : n = l.length := Nat.le_antisymm he h
    rw [this, Nat.sub_self, List.take_length]
    simp
  · rw [if_neg he]

theorem ensure_masks {V : Type} {w : ECS V} {entities : Nat}
    (hle : w.entity_masks.length ≤ entities * w.mask_blocks) :
    w.ensure_entity_mask_size entities =
      { w with
        entity_masks :=
          w.entity_masks ++
            List.replicate (entities * w.mask_blocks - w.entity_masks.length) 0 } := by
  unfold ECS.ensure_entity_mask_size
  by_cases h0 : w.mask_blocks = 0
  · rw [if_pos h0]
    rw [listResize_grow hle]
  · rw [if_neg h0]
    by_cases hlt : w.entity_masks.length < entities * w.mask_blocks
    · rw [if_pos hlt, listResize_grow hle]
    · rw [if_neg hlt]
      have : entities * w.mask_blocks - w.entity_masks.length = 0 := by omega
      rw [this]
      show w = _
      simp

theorem ensure_noop {V : Type} {w : ECS V}
    (hml : w.entity_masks.length = w.versions.length * w.mask_blocks)
    {entities : Nat} (hent : entities ≤ w.versions.length) :
    w.ensure_entity_mask_size entities = w := by
  unfold ECS.ensure_entity_mask_size
  by_cases h0 : w.mask_blocks = 0
  · rw [if_pos h0]
    have hz : w.entity_masks = [] :=
      List.eq_nil_of_length_eq_zero (by rw [hml, h0, Nat.mul_zero])
    have h2 : listResize w.entity_masks (entities * w.mask_blocks) =
        w.entity_masks := by
      rw [h0, Nat.mul_zero, hz]
      rfl
    rw [h2]
  · rw [if_neg h0, if_neg (by
      rw [hml]
      have : entities * w.mask_blocks ≤ w.versions.length * w.mask_blocks :=
        Nat.mul_le_mul_right _ hent
      omega)]

theorem getD_append_replicate_zero (l : List Nat) (k p : Nat) :
    (l ++ List.replicate k 0).getD p 0 = l.getD p 0 := by
  rw [List.getD_eq_getElem?_getD, List.getD_eq_getElem?_getD, List.getElem?_append]
  by_cases hp : p < l.length
  · rw [if_pos hp]
  · rw [if_neg hp, List.getElem?_replicate, List.getElem?_eq_none (by omega)]
    split <;> rfl

/-! ### The registry invariant -/

/-- The global invariant of the registry, maintained by every public
operation.  Its key clause is `corr`: bit `comp_id` of entity slot `ei`'s
mask is set exactly when the storage's sparse set contains `ei`. -/
structure INV {V : Type} (w : ECS V) : Prop where
  mb_eq : w.mask_blocks = blocks_for_bits w.component_count
  mask_len : w.entity_masks.length = w.versions.length * w.mask_blocks
  free_lt : ∀ i ∈ w.free_list, i < w.versions.length
  ids_lt : ∀ t c, w.lookupId t = some c → c < w.component_count
  ids_inj : ∀ t t' c, w.lookupId t = some c → w.lookupId t' = some c → t = t'
  st_reg : ∀ t st, w.lookupStorage t = some st → w.lookupId t = some st.comp_id
  st_wf : ∀ t st, w.lookupStorage t = some st → SSWF st.set
  keys_lt : ∀ t st, w.lookupStorage t = some st →
      ∀ k ∈ st.set.dense_entities, k < w.versions.length
  corr : ∀ t st, w.lookupStorage t = some st →
      ∀ ei, w.test_entity_bit ei st.comp_id = st.set.contains ei
  bits_st : ∀ ei c, c < BLOCK_BITS * w.mask_blocks →
      w.test_entity_bit ei c = true →
      ∃ t st, w.lookupStorage t = some st ∧ st.comp_id = c

theorem INV_empty (V : Type) : INV (ECS.empty V) := by
  refine ⟨by show (0 : Nat) = blocks_for_bits 0; decide,
    by show ([] : List Nat).length = ([] : List Nat).length * 0; decide,
    ?_, ?_, ?_, ?_, ?_, ?_, ?_, ?_⟩
  · intro i h; simp [ECS.empty] at h
  · intro t c h; simp [ECS.empty, ECS.lookupId, List.lookup] at h
  · intro t t' c h; simp [ECS.empty, ECS.lookupId, List.lookup] at h
  · intro t st h; simp [ECS.empty, ECS.lookupStorage, List.lookup] at h
  · intro t st h; simp [ECS.empty, ECS.lookupStorage, List.lookup] at h
  · intro t st h; simp [ECS.empty, ECS.lookupStorage, List.lookup] at h
  · intro t st h; simp [ECS.empty, ECS.lookupStorage, List.lookup] at h
  · intro ei c h
    simp [ECS.empty] at h

theorem storage_cid_lt {V : Type} {w : ECS V} (hinv : INV w) {t : Nat}
    {st : Storage V} (h : w.lookupStorage t = some st) :
    st.comp_id < w.component_count :=
  hinv.ids_lt t st.comp_id (hinv.st_reg t st h)

theorem storage_cid_word_lt {V : Type} {w : ECS V} (hinv : INV w) {t : Nat}
    {st : Storage V} (h : w.lookupStorage t = some st) :
    st.comp_id / BLOCK_BITS < w.mask_blocks := by
  have h1 := storage_cid_lt hinv h
  have h2 : st.comp_id < BLOCK_BITS * blocks_for_bits w.component_count :=
    lt_BLOCK_BITS_mul_blocks h1
  rw [hinv.mb_eq]
  unfold BLOCK_BITS at *
  omega

theorem contains_of_lt_false {V : Type} {w : ECS V} (hinv : INV w) {t : Nat}
    {st : Storage V} (h : w.lookupStorage t = some st) {ei : Nat}
    (hei : w.versions.length ≤ ei) : st.set.contains ei = false := by
  cases hc : st.set.contains ei with
  | false => rfl
  | true =>
    have hm := (contains_iff_mem (hinv.st_wf t st h) ei).1 hc
    have := hinv.keys_lt t st h ei hm
    omega

/-! ### component_id and get_or_create_storage -/

theorem component_id_hit {V : Type} {w : ECS V} {t c : Nat}
    (h : w.lookupId t = some c) : w.component_id t = (c, w) := by
  unfold ECS.component_id
  rw [show List.lookup t w.type_to_id = some c from h]

theorem component_id_miss {V : Type} {w : ECS V} {t : Nat}
    (h : w.lookupId t = none) :
    w.component_id t =
      (w.component_count,
        ECS.expand_masks_for_new_component
          { w with
            component_count := w.component_count + 1,
            type_to_id := w.type_to_id ++ [(t, w.component_count)] }) := by
  unfold ECS.component_id
  rw [show List.lookup t w.type_to_id = none from h]

theorem lookup_single_self {α : Type} (t : Nat) (x : α) :
    List.lookup t [(t, x)] = some x := lookup_cons_self t x []

theorem lookup_single_other {α : Type} {t k : Nat} (h : t ≠ k) (x : α) :
    List.lookup t [(k, x)] = none := by
  rw [lookup_cons_diff h]
  rfl

theorem inv_component_id {V : Type} {w : ECS V} (hinv : INV w) (t : Nat) :
    INV (w.component_id t).2 ∧
      (w.component_id t).2.lookupId t = some (w.component_id t).1 ∧
      (w.component_id t).1 < (w.component_id t).2.component_count ∧
      (w.component_id t).2.versions = w.versions ∧
      (w.component_id t).2.component_storages = w.component_storages ∧
      (∀ t', w.lookupId t' ≠ none → (w.component_id t).2.lookupId t' = w.lookupId t') := by
  cases hl : w.lookupId t with
  | some c =>
    rw [component_id_hit hl]
    exact ⟨hinv, hl, hinv.ids_lt t c hl, rfl, rfl, fun t' _ => rfl⟩
  | none =>
    rw [component_id_miss hl]
    have hml1 :
        ({ w with
            component_count := w.component_count + 1,
            type_to_id := w.type_to_id ++ [(t, w.component_count)] } :
          ECS V).entity_masks.length =
        ({ w with
            component_count := w.component_count + 1,
            type_to_id := w.type_to_id ++ [(t, w.component_count)] } :
          ECS V).versions.length *
          ({ w with
              component_count := w.component_count + 1,
              type_to_id := w.type_to_id ++ [(t, w.component_count)] } :
            ECS V).mask_blocks := hinv.mask_len
    have homb1 :
        ({ w with
            component_count := w.component_count + 1,
            type_to_id := w.type_to_id ++ [(t, w.component_count)] } :
          ECS V).mask_blocks ≤
        blocks_for_bits
          ({ w with
              component_count := w.component_count + 1,
              type_to_id := w.type_to_id ++ [(t, w.component_count)] } :
            ECS V).component_count := by
      show w.mask_blocks ≤ blocks_for_bits (w.component_count + 1)
      rw [hinv.mb_eq]
      exact blocks_mono (Nat.le_succ _)
    set w1 : ECS V :=
      { w with
        component_count := w.component_count + 1,
        type_to_id := w.type_to_id ++ [(t, w.component_count)] } with hw1
    have hidNew : ∀ t' c', (List.lookup t' w1.type_to_id = some c') ↔
        ((List.lookup t' w.type_to_id = some c') ∨
          (t' = t ∧ c' = w.component_count ∧
            List.lookup t' w.type_to_id = none)) := by
      intro t' c'
      show List.lookup t' (w.type_to_id ++ [(t, w.component_count)]) = some c' ↔ _
      constructor
      · intro h
        cases hold : List.lookup t' w.type_to_id with
        | some c0 =>
          rw [lookup_append_some _ hold] at h
          exact Or.inl h
        | none =>
          rw [lookup_append_none _ hold] at h
          by_cases ht : t' = t
          · rw [ht, lookup_single_self] at h
            injection h with h2
            exact Or.inr ⟨ht, h2.symm, rfl⟩
          · rw [lookup_single_other ht] at h
            cases h
      · rintro (h | ⟨rfl, rfl, hnone⟩)
        · exact lookup_append_some _ h
        · rw [lookup_append_none _ hnone, lookup_single_self]
    refine ⟨?_, ?_, ?_, ?_, ?_, ?_⟩
    · refine ⟨?_, ?_, ?_, ?_, ?_, ?_, ?_, ?_, ?_, ?_⟩
      · rw [expand_mask_blocks, expand_component_count]
      · rw [expand_mask_len hml1, expand_versions, expand_mask_blocks]
      · intro i h
        rw [expand_free_list] at h
        rw [expand_versions]
        exact hinv.free_lt i h
      · intro t' c' h
        rw [show (w1.expand_masks_for_new_component).lookupId t' =
            w1.lookupId t' from by
          unfold ECS.lookupId
          rw [expand_type_to_id]] at h
        rw [expand_component_count]
        rcases (hidNew t' c').1 h with h0 | ⟨_, rfl, _⟩
        · have := hinv.ids_lt t' c' h0
          show c' < w.component_count + 1
          omega
        · show w.component_count < w.component_count + 1
          omega
      · intro ta tb c' ha hb
        rw [show (w1.expand_masks_for_new_component).lookupId ta =
            w1.lookupId ta from by
          unfold ECS.lookupId
          rw [expand_type_to_id]] at ha
        rw [show (w1.expand_masks_for_new_component).lookupId tb =
            w1.lookupId tb from by
          unfold ECS.lookupId
          rw [expand_type_to_id]] at hb
        rcases (hidNew ta c').1 ha with h0 | ⟨rfl, rfl, _⟩
        · rcases (hidNew tb c').1 hb with h1 | ⟨rfl, rfl, _⟩
          · exact hinv.ids_inj ta tb c' h0 h1
          · exact absurd (hinv.ids_lt ta _ h0) (by omega)
        · rcases (hidNew tb _).1 hb with h1 | ⟨h2, _, _⟩
          · exact absurd (hinv.ids_lt tb _ h1) (by omega)
          · exact h2.symm
      · intro t' st h
        rw [show (w1.expand_masks_for_new_component).lookupStorage t' =
            w.lookupStorage t' from by
          unfold ECS.lookupStorage
          rw [expand_storages]] at h
        show (w1.expand_masks_for_new_component).lookupId t' = _
        unfold ECS.lookupId
        rw [expand_type_to_id]
        exact (hidNew t' st.comp_id).2 (Or.inl (hinv.st_reg t' st h))
      · intro t' st h
        rw [show (w1.expand_masks_for_new_component).lookupStorage t' =
            w.lookupStorage t' from by
          unfold ECS.lookupStorage
          rw [expand_storages]] at h
        exact hinv.st_wf t' st h
      · intro t' st h k hk
        rw [show (w1.expand_masks_for_new_component).lookupStorage t' =
            w.lookupStorage t' from by
          unfold ECS.lookupStorage
          rw [expand_storages]] at h
        rw [expand_versions]
        exact hinv.keys_lt t' st h k hk
      · intro t' st h ei
        rw [show (w1.expand_masks_for_new_component).lookupStorage t' =
            w.lookupStorage t' from by
          unfold ECS.lookupStorage
          rw [expand_storages]] at h
        have hcid := storage_cid_lt hinv h
        have hc64 : st.comp_id <
            BLOCK_BITS * blocks_for_bits w1.component_count := by
          show st.comp_id < BLOCK_BITS * blocks_for_bits (w.component_count + 1)
          exact lt_BLOCK_BITS_mul_blocks (by omega)
        rw [expand_test_bit hml1 homb1 hc64]
        by_cases hei : ei < w.versions.length
        · rw [if_pos ⟨hei, by
            show st.comp_id < BLOCK_BITS * w.mask_blocks
            rw [hinv.mb_eq]
            exact lt_BLOCK_BITS_mul_blocks hcid⟩]
          exact hinv.corr t' st h ei
        · rw [if_neg (by
            intro hc
            exact hei hc.1)]
          rw [contains_of_lt_false hinv h (by omega)]
      · intro ei c hc hbit
        rw [expand_test_bit hml1 homb1 (by
          rw [expand_mask_blocks] at hc
          exact hc)] at hbit
        by_cases hcond : ei < w.versions.length ∧ c < BLOCK_BITS * w.mask_blocks
        · rw [if_pos hcond] at hbit
          obtain ⟨t', st, hl2, hcid⟩ := hinv.bits_st ei c hcond.2 hbit
          refine ⟨t', st, ?_, hcid⟩
          show (w1.expand_masks_for_new_component).lookupStorage t' = some st
          unfold ECS.lookupStorage
          rw [expand_storages]
          exact hl2
        · rw [if_neg hcond] at hbit
          cases hbit
    · show (w1.expand_masks_for_new_component).lookupId t = _
      unfold ECS.lookupId
      rw [expand_type_to_id]
      exact (hidNew t w.component_count).2 (Or.inr ⟨rfl, rfl, hl⟩)
    · rw [expand_component_count]
      show w.component_count < w.component_count + 1
      omega
    · exact expand_versions w1
    · exact expand_storages w1
    · intro t' hne
      show (w1.expand_masks_for_new_component).lookupId t' = _
      unfold ECS.lookupId
      rw [expand_type_to_id]
      cases hold : w.lookupId t' with
      | some c0 =>
        rw [show List.lookup t' w1.type_to_id = some c0 from
          (hidNew t' c0).2 (Or.inl hold)]
        exact hold.symm
      | none => exact absurd hold hne

theorem get_or_create_hit {V : Type} {w : ECS V} {t : Nat} {st : Storage V}
    (h : w.lookupStorage t = some st) : w.get_or_create_storage t = (st, w) := by
  unfold ECS.get_or_create_storage
  rw [show List.lookup t w.component_storages = some st from h]

theorem get_or_create_miss {V : Type} {w : ECS V} {t : Nat}
    (h : w.lookupStorage t = none) :
    w.get_or_create_storage t =
      (⟨(w.component_id t).1, SparseSet.empty V⟩,
        { (w.component_id t).2 with
          component_storages := (w.component_id t).2.component_storages ++
            [(t, ⟨(w.component_id t).1, SparseSet.empty V⟩)] }) := by
  unfold ECS.get_or_create_storage
  rw [show List.lookup t w.component_storages = none from h]

theorem inv_get_or_create {V : Type} {w : ECS V} (hinv : INV w) (t : Nat) :
    INV (w.get_or_create_storage t).2 ∧
    (w.get_or_create_storage t).2.lookupStorage t =
      some (w.get_or_create_storage t).1 ∧
    (w.get_or_create_storage t).2.versions = w.versions ∧
    (∀ t', t' ≠ t →
      (w.get_or_create_storage t).2.lookupStorage t' = w.lookupStorage t') ∧
    ((w.lookupStorage t = some (w.get_or_create_storage t).1) ∨
      (w.lookupStorage t = none ∧
        (w.get_or_create_storage t).1.set = SparseSet.empty V ∧
        ∀ ei, (w.get_or_create_storage t).2.test_entity_bit ei
          (w.get_or_create_storage t).1.comp_id = false)) := by
  cases hl : w.lookupStorage t with
  | some st =>
    rw [get_or_create_hit hl]
    exact ⟨hinv, hl, rfl, fun t' _ => rfl, Or.inl rfl⟩
  | none =>
    obtain ⟨hinv1, hid, hcl, hver, hsto, hframe⟩ := inv_component_id hinv t
    rw [get_or_create_miss hl]
    have hwcnone : (w.component_id t).2.lookupStorage t = none := by
      show List.lookup t (w.component_id t).2.component_storages = none
      rw [hsto]
      exact hl
    have hlookup' : ∀ t'' st'',
        List.lookup t'' ((w.component_id t).2.component_storages ++
          [(t, (⟨(w.component_id t).1, SparseSet.empty V⟩ : Storage V))]) =
          some st'' →
        ((w.component_id t).2.lookupStorage t'' = some st'' ∨
          (t'' = t ∧ st'' = ⟨(w.component_id t).1, SparseSet.empty V⟩)) := by
      intro t'' st'' h
      cases hold : (w.component_id t).2.lookupStorage t'' with
      | some st0 =>
        rw [lookup_append_some _ hold] at h
        injection h with h2
        exact Or.inl (by rw [h2])
      | none =>
        rw [lookup_append_none _ hold] at h
        by_cases ht : t'' = t
        · rw [ht, lookup_single_self] at h
          injection h with h2
          exact Or.inr ⟨ht, h2.symm⟩
        · rw [lookup_single_other ht] at h
          cases h
    have htest0 : ∀ ei,
        (w.component_id t).2.test_entity_bit ei (w.component_id t).1 = false := by
      intro ei
      cases hb : (w.component_id t).2.test_entity_bit ei (w.component_id t).1 with
      | false => rfl
      | true =>
        exfalso
        have hcb : (w.component_id t).1 <
            BLOCK_BITS * (w.component_id t).2.mask_blocks := by
          rw [hinv1.mb_eq]
          exact lt_BLOCK_BITS_mul_blocks hcl
        obtain ⟨tb, stb, hlb, hcidb⟩ := hinv1.bits_st ei _ hcb hb
        have h1 := hinv1.st_reg tb stb hlb
        rw [hcidb] at h1
        have := hinv1.ids_inj tb t _ h1 hid
        rw [this] at hlb
        rw [hwcnone] at hlb
        cases hlb
    refine ⟨?_, ?_, hver, ?_, Or.inr ⟨rfl, rfl, ?_⟩⟩
    · refine ⟨hinv1.mb_eq, hinv1.mask_len, hinv1.free_lt, hinv1.ids_lt,
        hinv1.ids_inj, ?_, ?_, ?_, ?_, ?_⟩
      · intro t'' st'' h
        rcases hlookup' t'' st'' h with h0 | ⟨he1, he2⟩
        · exact hinv1.st_reg t'' st'' h0
        · rw [he1, he2]
          exact hid
      · intro t'' st'' h
        rcases hlookup' t'' st'' h with h0 | ⟨he1, he2⟩
        · exact hinv1.st_wf t'' st'' h0
        · rw [he2]
          exact SSWF_empty V
      · intro t'' st'' h k hk
        rcases hlookup' t'' st'' h with h0 | ⟨he1, he2⟩
        · exact hinv1.keys_lt t'' st'' h0 k hk
        · rw [he2] at hk
          simp [SparseSet.empty] at hk
      · intro t'' st'' h ei
        rcases hlookup' t'' st'' h with h0 | ⟨he1, he2⟩
        · exact hinv1.corr t'' st'' h0 ei
        · rw [he2]
          show (w.component_id t).2.test_entity_bit ei (w.component_id t).1 = _
          rw [htest0 ei]
          rfl
      · intro ei c hc hbit
        obtain ⟨tb, stb, hlb, hcidb⟩ := hinv1.bits_st ei c hc hbit
        exact ⟨tb, stb, lookup_append_some _ hlb, hcidb⟩
    · show List.lookup _ _ = _
      rw [lookup_append_none _ hwcnone, lookup_single_self]
    · intro t' ht'
      have hw : w.lookupStorage t' = (w.component_id t).2.lookupStorage t' := by
        show List.lookup t' w.component_storages = _
        show _ = List.lookup t' (w.component_id t).2.component_storages
        rw [hsto]
      show List.lookup _ _ = _
      cases hold : (w.component_id t).2.lookupStorage t' with
      | some st0 =>
        rw [lookup_append_some _ hold, hw]
        exact hold.symm
      | none =>
        rw [lookup_append_none _ hold, lookup_single_other ht', hw]
        exact hold.symm
    · exact htest0

/-! ### Bit-write characterizations -/

theorem set_entity_bit_eq {V : Type} {w : ECS V} {c : Nat}
    (hmb : w.mask_blocks = blocks_for_bits w.component_count)
    (hml : w.entity_masks.length = w.versions.length * w.mask_blocks)
    (hc : c < w.component_count) (ei : Nat) :
    w.set_entity_bit ei c =
      { w with
        entity_masks :=
          w.entity_masks.set (ei * w.mask_blocks + c / BLOCK_BITS)
            ((w.entity_masks.getD (ei * w.mask_blocks + c / BLOCK_BITS) 0) |||
              (1 <<< (c % BLOCK_BITS))) } := by
  unfold ECS.set_entity_bit
  rw [if_neg (by omega)]
  rw [if_neg (show ¬(blocks_for_bits w.component_count ≠ w.mask_blocks) from
    fun h => h hmb.symm)]
  rw [ensure_noop hml (Nat.le_refl _)]

theorem mod_lt_BLOCK_BITS (c : Nat) : c % BLOCK_BITS < BLOCK_BITS :=
  Nat.mod_lt _ (by unfold BLOCK_BITS; omega)

theorem div_mod_eq_iff {c c' : Nat} (hdiv : c' / BLOCK_BITS = c / BLOCK_BITS) :
    (c % BLOCK_BITS = c' % BLOCK_BITS) ↔ (c' = c) := by
  constructor
  · intro h
    have h1 := Nat.div_add_mod c BLOCK_BITS
    have h2 := Nat.div_add_mod c' BLOCK_BITS
    rw [hdiv] at h2
    omega
  · intro h
    rw [h]

theorem test_after_or {V : Type} {w : ECS V} {ei c : Nat}
    (hcb : c / BLOCK_BITS < w.mask_blocks)
    (hpos : ei * w.mask_blocks + c / BLOCK_BITS < w.entity_masks.length)
    (ei' c' : Nat) (hcb' : c' / BLOCK_BITS < w.mask_blocks) :
    ({ w with
        entity_masks :=
          w.entity_masks.set (ei * w.mask_blocks + c / BLOCK_BITS)
            ((w.entity_masks.getD (ei * w.mask_blocks + c / BLOCK_BITS) 0) |||
              (1 <<< (c % BLOCK_BITS))) } : ECS V).test_entity_bit ei' c' =
      (w.test_entity_bit ei' c' || (decide (ei' = ei) && decide (c' = c))) := by
  unfold ECS.test_entity_bit ECS.emask
  show ((w.entity_masks.set (ei * w.mask_blocks + c / BLOCK_BITS) _).getD
      (ei' * w.mask_blocks + c' / BLOCK_BITS) 0).testBit (c' % BLOCK_BITS) = _
  by_cases hpp : ei * w.mask_blocks + c / BLOCK_BITS =
      ei' * w.mask_blocks + c' / BLOCK_BITS
  · obtain ⟨hee, hcc⟩ := slot_pos_inj hcb hcb' hpp
    rw [← hpp, getD_set_self hpos, testBit_set_word]
    have hdec : decide (c % BLOCK_BITS = c' % BLOCK_BITS) = decide (c' = c) := by
      rw [decide_eq_decide]
      exact div_mod_eq_iff hcc.symm
    rw [hdec]
    have hdee : decide (ei' = ei) = true := by
      rw [decide_eq_true_eq]
      exact hee.symm
    rw [hdee, Bool.true_and]
  · rw [getD_set_other hpp]
    have hb : (decide (ei' = ei) && decide (c' = c)) = false := by
      by_cases h1 : ei' = ei
      · by_cases h2 : c' = c
        · exact absurd (by rw [h1, h2]) hpp
        · simp [h2]
      · simp [h1]
    rw [hb, Bool.or_false]

theorem reset_entity_bit_eq {V : Type} {w : ECS V} (h0 : w.mask_blocks ≠ 0)
    (ei c : Nat) :
    w.reset_entity_bit ei c =
      { w with
        entity_masks :=
          w.entity_masks.set (ei * w.mask_blocks + c / BLOCK_BITS)
            ((w.entity_masks.getD (ei * w.mask_blocks + c / BLOCK_BITS) 0) &&&
              ((2 ^ BLOCK_BITS - 1) ^^^ (1 <<< (c % BLOCK_BITS)))) } := by
  unfold ECS.reset_entity_bit
  rw [if_neg h0]

theorem test_after_and {V : Type} {w : ECS V} {ei c : Nat}
    (hcb : c / BLOCK_BITS < w.mask_blocks)
    (hpos : ei * w.mask_blocks + c / BLOCK_BITS < w.entity_masks.length)
    (ei' c' : Nat) (hcb' : c' / BLOCK_BITS < w.mask_blocks) :
    ({ w with
        entity_masks :=
          w.entity_masks.set (ei * w.mask_blocks + c / BLOCK_BITS)
            ((w.entity_masks.getD (ei * w.mask_blocks + c / BLOCK_BITS) 0) &&&
              ((2 ^ BLOCK_BITS - 1) ^^^ (1 <<< (c % BLOCK_BITS)))) } :
      ECS V).test_entity_bit ei' c' =
      (w.test_entity_bit ei' c' && !(decide (ei' = ei) && decide (c' = c))) := by
  unfold ECS.test_entity_bit ECS.emask
  show ((w.entity_masks.set (ei * w.mask_blocks + c / BLOCK_BITS) _).getD
      (ei' * w.mask_blocks + c' / BLOCK_BITS) 0).testBit (c' % BLOCK_BITS) = _
  by_cases hpp : ei * w.mask_blocks + c / BLOCK_BITS =
      ei' * w.mask_blocks + c' / BLOCK_BITS
  · obtain ⟨hee, hcc⟩ := slot_pos_inj hcb hcb' hpp
    rw [← hpp, getD_set_self hpos,
      testBit_reset_word _ _ _ (mod_lt_BLOCK_BITS c')]
    have hdec : decide (c % BLOCK_BITS = c' % BLOCK_BITS) = decide (c' = c) := by
      rw [decide_eq_decide]
      exact div_mod_eq_iff hcc.symm
    rw [hdec]
    have hdee : decide (ei' = ei) = true := by
      rw [decide_eq_true_eq]
      exact hee.symm
    rw [hdee, Bool.true_and]
  · rw [getD_set_other hpp]
    have hb : (decide (ei' = ei) && decide (c' = c)) = false := by
      by_cases h1 : ei' = ei
      · by_cases h2 : c' = c
        · exact absurd (by rw [h1, h2]) hpp
        · simp [h2]
      · simp [h1]
    rw [hb, Bool.not_false, Bool.and_true]

theorem is_alive_index_lt {V : Type} {w : ECS V} {e : Entity}
    (h : w.is_alive e = true) : e.index < w.versions.length := by
  unfold ECS.is_alive at h
  rw [Bool.and_eq_true] at h
  exact of_decide_eq_true h.1

theorem is_alive_version_eq {V : Type} {w : ECS V} {e : Entity}
    (h : w.is_alive e = true) : w.versions.getD e.index 0 = e.version := by
  unfold ECS.is_alive at h
  rw [Bool.and_eq_true] at h
  simpa using h.2

theorem nat_beq_eq_decide (a b : Nat) : (a == b) = decide (a = b) := by
  by_cases h : a = b
  · rw [h]
    simp
  · simp [h]

set_option maxHeartbeats 1000000 in
theorem inv_add {V : Type} {w : ECS V} (hinv : INV w) {e : Entity} (t : Nat)
    (v : V) (halive : w.is_alive e = true) : INV (w.add e t v) := by
  obtain ⟨hinv1, hst1, hver1, hframe1, hdisj⟩ := inv_get_or_create hinv t
  have hwf : SSWF (w.get_or_create_storage t).1.set :=
    hinv1.st_wf t _ hst1
  have hcid : (w.get_or_create_storage t).1.comp_id <
      (w.get_or_create_storage t).2.component_count :=
    storage_cid_lt hinv1 hst1
  have hcb : (w.get_or_create_storage t).1.comp_id / BLOCK_BITS <
      (w.get_or_create_storage t).2.mask_blocks :=
    storage_cid_word_lt hinv1 hst1
  have hei : e.index < (w.get_or_create_storage t).2.versions.length := by
    rw [hver1]
    exact is_alive_index_lt halive
  show INV ((ECS.updateStorage (w.get_or_create_storage t).2 t
      ⟨(w.get_or_create_storage t).1.comp_id,
        (w.get_or_create_storage t).1.set.insert e.index v⟩).set_entity_bit
      e.index (w.get_or_create_storage t).1.comp_id)
  set st : Storage V := (w.get_or_create_storage t).1 with hsteq
  set w1 : ECS V := (w.get_or_create_storage t).2 with hw1eq
  set st2 : Storage V := ⟨st.comp_id, st.set.insert e.index v⟩ with hst2eq
  set w2 : ECS V := ECS.updateStorage w1 t st2 with hw2eq
  have hmb2 : w2.mask_blocks = blocks_for_bits w2.component_count := hinv1.mb_eq
  have hml2 : w2.entity_masks.length = w2.versions.length * w2.mask_blocks :=
    hinv1.mask_len
  have hcid2 : st.comp_id < w2.component_count := hcid
  rw [set_entity_bit_eq hmb2 hml2 hcid2 e.index]
  have hcb2 : st.comp_id / BLOCK_BITS < w2.mask_blocks := hcb
  have hpos2 : e.index * w2.mask_blocks + st.comp_id / BLOCK_BITS <
      w2.entity_masks.length := by
    rw [hml2]
    have h1 : (e.index + 1) * w2.mask_blocks ≤
        w2.versions.length * w2.mask_blocks :=
      Nat.mul_le_mul_right _ (by
        show e.index + 1 ≤ w1.versions.length
        omega)
    have h2 : e.index * w2.mask_blocks + st.comp_id / BLOCK_BITS <
        (e.index + 1) * w2.mask_blocks := by
      rw [Nat.succ_mul]
      have : st.comp_id / BLOCK_BITS < w2.mask_blocks := hcb2
      omega
    omega
  have hstq : ∀ t'' st'',
      List.lookup t'' (w1.component_storages.map
        (fun p => if p.1 = t then (t, st2) else p)) = some st'' →
      ((t'' = t ∧ st'' = st2) ∨
        (t'' ≠ t ∧ w1.lookupStorage t'' = some st'')) :=
    fun t'' st'' h => lookup_map_if_elim h
  refine ⟨hmb2, ?_, ?_, ?_, ?_, ?_, ?_, ?_, ?_, ?_⟩
  · show (w2.entity_masks.set _ _).length = _
    rw [List.length_set]
    exact hml2
  · exact hinv1.free_lt
  · exact hinv1.ids_lt
  · exact hinv1.ids_inj
  · intro t'' st'' h
    rcases hstq t'' st'' h with ⟨he1, he2⟩ | ⟨hne, h0⟩
    · rw [he1, he2]
      exact hinv1.st_reg t st hst1
    · exact hinv1.st_reg t'' st'' h0
  · intro t'' st'' h
    rcases hstq t'' st'' h with ⟨he1, he2⟩ | ⟨hne, h0⟩
    · rw [he2]
      exact SSWF_insert hwf e.index v
    · exact hinv1.st_wf t'' st'' h0
  · intro t'' st'' h k hk
    rcases hstq t'' st'' h with ⟨he1, he2⟩ | ⟨hne, h0⟩
    · rw [he2] at hk
      show k < w1.versions.length
      have hk2 : k ∈ (st.set.insert e.index v).dense_entities := hk
      rw [insert_dense hwf e.index v] at hk2
      by_cases hc : st.set.contains e.index = true
      · rw [if_pos hc] at hk2
        exact hinv1.keys_lt t st hst1 k hk2
      · rw [if_neg hc] at hk2
        rcases List.mem_append.1 hk2 with hm | hm
        · exact hinv1.keys_lt t st hst1 k hm
        · rw [List.mem_singleton] at hm
          omega
    · exact hinv1.keys_lt t'' st'' h0 k hk
  · intro t'' st'' h ei'
    rcases hstq t'' st'' h with ⟨he1, he2⟩ | ⟨hne, h0⟩
    · rw [he2]
      show ({ w2 with entity_masks := _ } : ECS V).test_entity_bit ei'
          st.comp_id = (st.set.insert e.index v).contains ei'
      rw [test_after_or hcb2 hpos2 ei' st.comp_id hcb2]
      have ht12 : w2.test_entity_bit ei' st.comp_id = st.set.contains ei' :=
        hinv1.corr t st hst1 ei'
      rw [ht12, contains_insert hwf e.index v ei']
      rw [decide_eq_true (show st.comp_id = st.comp_id from rfl), Bool.and_true,
        nat_beq_eq_decide]
    · have hcidne : st''.comp_id ≠ st.comp_id := by
        intro hc
        have ha := hinv1.st_reg t'' st'' h0
        have hb := hinv1.st_reg t st hst1
        rw [hc] at ha
        exact hne (hinv1.ids_inj t'' t _ ha hb)
      have hcb'' : st''.comp_id / BLOCK_BITS < w2.mask_blocks :=
        storage_cid_word_lt hinv1 h0
      show ({ w2 with entity_masks := _ } : ECS V).test_entity_bit ei'
          st''.comp_id = st''.set.contains ei'
      rw [test_after_or hcb2 hpos2 ei' st''.comp_id hcb'']
      rw [decide_eq_false hcidne, Bool.and_false, Bool.or_false]
      exact hinv1.corr t'' st'' h0 ei'
  · intro ei' c' hc' hbit
    have hc2 : c' < BLOCK_BITS * w2.mask_blocks := hc'
    have hcb' : c' / BLOCK_BITS < w2.mask_blocks := by
      unfold BLOCK_BITS at hc2 ⊢
      omega
    rw [test_after_or hcb2 hpos2 ei' c' hcb'] at hbit
    rw [Bool.or_eq_true] at hbit
    rcases hbit with hb | hb
    · obtain ⟨tb, stb, hlb, hcidb⟩ := hinv1.bits_st ei' c' hc2 hb
      by_cases htb : tb = t
      · rw [htb] at hlb
        rw [hst1] at hlb
        injection hlb with hlb2
        refine ⟨t, st2, lookup_map_if_self st2 hst1, ?_⟩
        show st.comp_id = c'
        rw [← hcidb, hlb2]
      · refine ⟨tb, stb, ?_, hcidb⟩
        show List.lookup tb (w1.component_storages.map
          (fun p => if p.1 = t then (t, st2) else p)) = some stb
        rw [lookup_map_if_other htb st2]
        exact hlb
    · rw [Bool.and_eq_true] at hb
      have hcc : c' = st.comp_id := of_decide_eq_true hb.2
      exact ⟨t, st2, lookup_map_if_self st2 hst1, by
        show st.comp_id = c'
        rw [hcc]⟩

theorem mem_of_mem_erase {T : Type} {s : SparseSet T} (hwf : SSWF s) {e k : Nat}
    (hk : k ∈ (s.erase e).dense_entities) : k ∈ s.dense_entities := by
  by_cases hc : s.contains e = true
  · exact ((mem_erase_dense hwf hc k).1 hk).1
  · rw [erase_not_contained (by simpa using hc)] at hk
    exact hk

set_option maxHeartbeats 1000000 in
theorem inv_remove {V : Type} {w : ECS V} (hinv : INV w) (e : Entity) (t : Nat) :
    INV (w.remove e t) := by
  unfold ECS.remove
  by_cases halive : w.is_alive e = true
  · rw [if_pos halive]
    cases hl : List.lookup t w.component_storages with
    | none => exact hinv
    | some st =>
      have hst : w.lookupStorage t = some st := hl
      have hwf : SSWF st.set := hinv.st_wf t st hst
      have hcid : st.comp_id < w.component_count := storage_cid_lt hinv hst
      have hcb : st.comp_id / BLOCK_BITS < w.mask_blocks :=
        storage_cid_word_lt hinv hst
      have hei : e.index < w.versions.length := is_alive_index_lt halive
      have hmb0 : w.mask_blocks ≠ 0 := by
        rw [hinv.mb_eq]
        have := blocks_pos (show 0 < w.component_count by omega)
        omega
      show INV ((ECS.updateStorage w t
        ⟨st.comp_id, st.set.erase e.index⟩).reset_entity_bit e.index st.comp_id)
      set st2 : Storage V := ⟨st.comp_id, st.set.erase e.index⟩ with hst2eq
      set w2 : ECS V := ECS.updateStorage w t st2 with hw2eq
      have hmb0' : w2.mask_blocks ≠ 0 := hmb0
      rw [reset_entity_bit_eq hmb0' e.index st.comp_id]
      have hcb2 : st.comp_id / BLOCK_BITS < w2.mask_blocks := hcb
      have hml2 : w2.entity_masks.length = w2.versions.length * w2.mask_blocks :=
        hinv.mask_len
      have hpos2 : e.index * w2.mask_blocks + st.comp_id / BLOCK_BITS <
          w2.entity_masks.length := by
        rw [hml2]
        have h1 : (e.index + 1) * w2.mask_blocks ≤
            w2.versions.length * w2.mask_blocks :=
          Nat.mul_le_mul_right _ (by
            show e.index + 1 ≤ w.versions.length
            omega)
        have h2 : e.index * w2.mask_blocks + st.comp_id / BLOCK_BITS <
            (e.index + 1) * w2.mask_blocks := by
          rw [Nat.succ_mul]
          have : st.comp_id / BLOCK_BITS < w2.mask_blocks := hcb2
          omega
        omega
      have hstq : ∀ t'' st'',
          List.lookup t'' (w.component_storages.map
            (fun p => if p.1 = t then (t, st2) else p)) = some st'' →
          ((t'' = t ∧ st'' = st2) ∨
            (t'' ≠ t ∧ w.lookupStorage t'' = some st'')) :=
        fun t'' st'' h => lookup_map_if_elim h
      refine ⟨hinv.mb_eq, ?_, hinv.free_lt, hinv.ids_lt, hinv.ids_inj,
        ?_, ?_, ?_, ?_, ?_⟩
      · show (w2.entity_masks.set _ _).length = _
        rw [List.length_set]
        exact hml2
      · intro t'' st'' h
        rcases hstq t'' st'' h with ⟨he1, he2⟩ | ⟨hne, h0⟩
        · rw [he1, he2]
          exact hinv.st_reg t st hst
        · exact hinv.st_reg t'' st'' h0
      · intro t'' st'' h
        rcases hstq t'' st'' h with ⟨he1, he2⟩ | ⟨hne, h0⟩
        · rw [he2]
          exact SSWF_erase hwf e.index
        · exact hinv.st_wf t'' st'' h0
      · intro t'' st'' h k hk
        rcases hstq t'' st'' h with ⟨he1, he2⟩ | ⟨hne, h0⟩
        · rw [he2] at hk
          exact hinv.keys_lt t st hst k (mem_of_mem_erase hwf hk)
        · exact hinv.keys_lt t'' st'' h0 k hk
      · intro t'' st'' h ei'
        rcases hstq t'' st'' h with ⟨he1, he2⟩ | ⟨hne, h0⟩
        · rw [he2]
          show ({ w2 with entity_masks := _ } : ECS V).test_entity_bit ei'
              st.comp_id = (st.set.erase e.index).contains ei'
          rw [test_after_and hcb2 hpos2 ei' st.comp_id hcb2]
          have ht12 : w2.test_entity_bit ei' st.comp_id = st.set.contains ei' :=
            hinv.corr t st hst ei'
          rw [ht12, contains_erase hwf e.index ei']
          rw [decide_eq_true (show st.comp_id = st.comp_id from rfl),
            Bool.and_true,
            show (ei' != e.index) = !(ei' == e.index) from rfl,
            nat_beq_eq_decide]
        · have hcidne : st''.comp_id ≠ st.comp_id := by
            intro hc
            have ha := hinv.st_reg t'' st'' h0
            have hb := hinv.st_reg t st hst
            rw [hc] at ha
            exact hne (hinv.ids_inj t'' t _ ha hb)
          have hcb'' : st''.comp_id / BLOCK_BITS < w2.mask_blocks :=
            storage_cid_word_lt hinv h0
          show ({ w2 with entity_masks := _ } : ECS V).test_entity_bit ei'
              st''.comp_id = st''.set.contains ei'
          rw [test_after_and hcb2 hpos2 ei' st''.comp_id hcb'']
          rw [decide_eq_false hcidne, Bool.and_false, Bool.not_false,
            Bool.and_true]
          exact hinv.corr t'' st'' h0 ei'
      · intro ei' c' hc' hbit
        have hc2 : c' < BLOCK_BITS * w2.mask_blocks := hc'
        have hcb' : c' / BLOCK_BITS < w2.mask_blocks := by
          unfold BLOCK_BITS at hc2 ⊢
          omega
        rw [test_after_and hcb2 hpos2 ei' c' hcb'] at hbit
        rw [Bool.and_eq_true] at hbit
        obtain ⟨tb, stb, hlb, hcidb⟩ := hinv.bits_st ei' c' hc2 hbit.1
        by_cases htb : tb = t
        · rw [htb] at hlb
          rw [hst] at hlb
          injection hlb with hlb2
          refine ⟨t, st2, lookup_map_if_self st2 hst, ?_⟩
          show st.comp_id = c'
          rw [← hcidb, hlb2]
        · refine ⟨tb, stb, ?_, hcidb⟩
          show List.lookup tb (w.component_storages.map
            (fun p => if p.1 = t then (t, st2) else p)) = some stb
          rw [lookup_map_if_other htb st2]
          exact hlb
  · rw [if_neg halive]
    exact hinv

theorem test_append_zeros_general {V : Type} (w' w : ECS V) (k : Nat)
    (hm : w'.entity_masks = w.entity_masks ++ List.replicate k 0)
    (hb : w'.mask_blocks = w.mask_blocks) (ei c : Nat) :
    w'.test_entity_bit ei c = w.test_entity_bit ei c := by
  unfold ECS.test_entity_bit ECS.emask
  rw [hm, hb, getD_append_replicate_zero]

theorem inv_create_entity {V : Type} {w : ECS V} (hinv : INV w) :
    INV (w.create_entity).2 := by
  unfold ECS.create_entity
  cases hfl : w.free_list.getLast? with
  | some idx =>
    have hidx : idx < w.versions.length :=
      hinv.free_lt idx (List.mem_of_mem_getLast? hfl)
    have hinv1 : INV ({ w with free_list := w.free_list.dropLast } : ECS V) :=
      ⟨hinv.mb_eq, hinv.mask_len,
        fun i hi => hinv.free_lt i (List.mem_of_mem_dropLast hi),
        hinv.ids_lt, hinv.ids_inj, hinv.st_reg, hinv.st_wf, hinv.keys_lt,
        hinv.corr, hinv.bits_st⟩
    show INV (ECS.ensure_entity_mask_size
      { w with free_list := w.free_list.dropLast } (idx + 1))
    rw [ensure_noop hinv1.mask_len (by
      show idx + 1 ≤ w.versions.length
      omega)]
    exact hinv1
  | none =>
    show INV (ECS.ensure_entity_mask_size
      { w with versions := w.versions ++ [1] } (w.versions.length + 1))
    have hle1 : ({ w with versions := w.versions ++ [1] } :
        ECS V).entity_masks.length ≤
        (w.versions.length + 1) *
          ({ w with versions := w.versions ++ [1] } : ECS V).mask_blocks := by
      show w.entity_masks.length ≤ (w.versions.length + 1) * w.mask_blocks
      rw [hinv.mask_len, Nat.succ_mul]
      omega
    rw [ensure_masks hle1]
    refine ⟨?_, ?_, ?_, hinv.ids_lt, hinv.ids_inj, hinv.st_reg,
      hinv.st_wf, ?_, ?_, ?_⟩
    · show w.mask_blocks = blocks_for_bits w.component_count
      exact hinv.mb_eq
    · show (w.entity_masks ++ List.replicate
          ((w.versions.length + 1) * w.mask_blocks -
            w.entity_masks.length) 0).length =
        (w.versions ++ [1]).length * w.mask_blocks
      rw [List.length_append, List.length_replicate, List.length_append,
        List.length_singleton, hinv.mask_len, Nat.succ_mul]
      omega
    · intro i hi
      have h2 := hinv.free_lt i hi
      show i < (w.versions ++ [1]).length
      rw [List.length_append, List.length_singleton]
      omega
    · intro t st h k hk
      have h2 := hinv.keys_lt t st h k hk
      show k < (w.versions ++ [1]).length
      rw [List.length_append, List.length_singleton]
      omega
    · intro t st h ei
      refine Eq.trans (test_append_zeros_general _ w
        ((w.versions.length + 1) * w.mask_blocks - w.entity_masks.length)
        ?_ ?_ ei st.comp_id) (hinv.corr t st h ei) <;> rfl
    · intro ei c hc hbit
      have hbit2 : w.test_entity_bit ei c = true := by
        refine Eq.trans (Eq.symm (test_append_zeros_general _ w
          ((w.versions.length + 1) * w.mask_blocks - w.entity_masks.length)
          ?_ ?_ ei c)) hbit <;> rfl
      exact hinv.bits_st ei c hc hbit2

theorem clear_mask_succ (masks : List Nat) (start blocks : Nat) :
    clear_mask masks start (blocks + 1) =
      (clear_mask masks start blocks).set (start + blocks) 0 := by
  unfold clear_mask
  rw [List.range_succ, List.foldl_concat]

theorem clear_length (masks : List Nat) (start : Nat) :
    ∀ blocks, (clear_mask masks start blocks).length = masks.length := by
  intro blocks
  induction blocks with
  | zero => rfl
  | succ m ih => rw [clear_mask_succ, List.length_set, ih]

theorem clear_getD_in (masks : List Nat) (start : Nat) {b : Nat} :
    ∀ blocks, b < blocks →
      (clear_mask masks start blocks).getD (start + b) 0 = 0 := by
  intro blocks
  induction blocks with
  | zero => intro h; omega
  | succ m ih =>
    intro hb
    rw [clear_mask_succ]
    by_cases hbm : b = m
    · rw [hbm, List.getD_eq_getElem?_getD, List.getElem?_set, if_pos rfl]
      split
      · rfl
      · rfl
    · rw [getD_set_other (by omega) _]
      exact ih (by omega)

theorem clear_getD_out (masks : List Nat) (start : Nat) {p : Nat} :
    ∀ blocks, (∀ b, b < blocks → p ≠ start + b) →
      (clear_mask masks start blocks).getD p 0 = masks.getD p 0 := by
  intro blocks
  induction blocks with
  | zero => intro _; rfl
  | succ m ih =>
    intro hout
    rw [clear_mask_succ,
      getD_set_other (fun hc => hout m (Nat.lt_succ_self m) hc.symm) _]
    exact ih (fun b hb => hout b (Nat.lt_succ_of_lt hb))

theorem test_clear_general {V : Type} (w' w : ECS V) (ei0 : Nat)
    (hm : w'.entity_masks =
      (if 0 < w.mask_blocks then
        clear_mask w.entity_masks (ei0 * w.mask_blocks) w.mask_blocks
      else w.entity_masks))
    (hb : w'.mask_blocks = w.mask_blocks)
    (ei c : Nat) (hcb : c / BLOCK_BITS < w.mask_blocks) :
    w'.test_entity_bit ei c =
      (if ei = ei0 then false else w.test_entity_bit ei c) := by
  unfold ECS.test_entity_bit ECS.emask
  rw [hm, hb]
  have h0 : 0 < w.mask_blocks := Nat.lt_of_le_of_lt (Nat.zero_le _) hcb
  rw [if_pos h0]
  by_cases hei : ei = ei0
  · rw [if_pos hei, hei, clear_getD_in w.entity_masks _ w.mask_blocks hcb]
    exact Nat.zero_testBit _
  · rw [if_neg hei, clear_getD_out w.entity_masks _ w.mask_blocks
      (fun b hb2 hc2 => hei (slot_pos_inj hcb hb2 hc2).1)]

theorem lookup_map_erase {V : Type} (l : List (Nat × Storage V)) (ei t : Nat) :
    List.lookup t (l.map
      (fun p => (p.1, (⟨p.2.comp_id, p.2.set.erase ei⟩ : Storage V)))) =
      (List.lookup t l).map
        (fun st => (⟨st.comp_id, st.set.erase ei⟩ : Storage V)) := by
  induction l with
  | nil => rfl
  | cons p rest ih =>
    obtain ⟨k, v⟩ := p
    by_cases hk : t = k
    · rw [List.map_cons]
      show List.lookup t ((k, (⟨v.comp_id, v.set.erase ei⟩ : Storage V)) :: _) = _
      rw [hk, lookup_cons_self, lookup_cons_self]
      rfl
    · rw [List.map_cons]
      show List.lookup t ((k, (⟨v.comp_id, v.set.erase ei⟩ : Storage V)) :: _) = _
      rw [lookup_cons_diff hk, lookup_cons_diff hk]
      exact ih

set_option maxHeartbeats 1000000 in
theorem inv_destroy_entity {V : Type} {w : ECS V} (hinv : INV w) (e : Entity) :
    INV (w.destroy_entity e) := by
  unfold ECS.destroy_entity
  by_cases halive : w.is_alive e = true
  · rw [if_pos halive]
    have hei : e.index < w.versions.length := is_alive_index_lt halive
    have hstq : ∀ t'' st'',
        List.lookup t'' (w.component_storages.map
          (fun p => (p.1, (⟨p.2.comp_id, p.2.set.erase e.index⟩ : Storage V)))) =
          some st'' →
        ∃ st0, w.lookupStorage t'' = some st0 ∧
          st'' = ⟨st0.comp_id, st0.set.erase e.index⟩ := by
      intro t'' st'' h
      rw [lookup_map_erase] at h
      cases hl0 : List.lookup t'' w.component_storages with
      | none =>
        rw [hl0] at h
        cases h
      | some st0 =>
        rw [hl0] at h
        injection h with h2
        exact ⟨st0, hl0, h2.symm⟩
    refine ⟨hinv.mb_eq, ?_, ?_, hinv.ids_lt, hinv.ids_inj, ?_, ?_, ?_, ?_, ?_⟩
    · show (if 0 < w.mask_blocks then
          clear_mask w.entity_masks (e.index * w.mask_blocks) w.mask_blocks
        else w.entity_masks).length =
        (w.versions.set e.index (w.versions.getD e.index 0 + 1)).length *
          w.mask_blocks
      rw [List.length_set]
      split
      · rw [clear_length]
        exact hinv.mask_len
      · exact hinv.mask_len
    · intro i hi
      have hi2 : i ∈ w.free_list ++ [e.index] := hi
      show i < (w.versions.set e.index (w.versions.getD e.index 0 + 1)).length
      rw [List.length_set]
      rcases List.mem_append.1 hi2 with hm | hm
      · exact hinv.free_lt i hm
      · rw [List.mem_singleton] at hm
        omega
    · intro t'' st'' h
      obtain ⟨st0, hl0, he⟩ := hstq t'' st'' h
      rw [he]
      exact hinv.st_reg t'' st0 hl0
    · intro t'' st'' h
      obtain ⟨st0, hl0, he⟩ := hstq t'' st'' h
      rw [he]
      exact SSWF_erase (hinv.st_wf t'' st0 hl0) e.index
    · intro t'' st'' h k hk
      obtain ⟨st0, hl0, he⟩ := hstq t'' st'' h
      rw [he] at hk
      have hk2 := mem_of_mem_erase (hinv.st_wf t'' st0 hl0) hk
      have := hinv.keys_lt t'' st0 hl0 k hk2
      show k < (w.versions.set e.index (w.versions.getD e.index 0 + 1)).length
      rw [List.length_set]
      omega
    · intro t'' st'' h ei'
      obtain ⟨st0, hl0, he⟩ := hstq t'' st'' h
      rw [he]
      have hcb : st0.comp_id / BLOCK_BITS < w.mask_blocks :=
        storage_cid_word_lt hinv hl0
      refine Eq.trans (test_clear_general _ w e.index ?_ ?_ ei' st0.comp_id hcb)
        ?_
      · rfl
      · rfl
      rw [contains_erase (hinv.st_wf t'' st0 hl0) e.index ei']
      by_cases heq : ei' = e.index
      · rw [if_pos heq, heq]
        have : (e.index != e.index) = false := by simp
        rw [this, Bool.and_false]
      · rw [if_neg heq]
        have : (ei' != e.index) = true := by
          rw [show (ei' != e.index) = !(ei' == e.index) from rfl,
            nat_beq_eq_decide, decide_eq_false heq]
          rfl
        rw [this, Bool.and_true]
        exact hinv.corr t'' st0 hl0 ei'
    · intro ei' c' hc' hbit
      have hc2 : c' < BLOCK_BITS * w.mask_blocks := hc'
      have hcb' : c' / BLOCK_BITS < w.mask_blocks := by
        unfold BLOCK_BITS at hc2 ⊢
        omega
      have hbit2 : (if ei' = e.index then false
          else w.test_entity_bit ei' c') = true := by
        refine Eq.trans (Eq.symm
          (test_clear_general _ w e.index ?_ ?_ ei' c' hcb')) hbit
        · rfl
        · rfl
      clear hbit
      rename' hbit2 => hbit
      by_cases heq : ei' = e.index
      · rw [if_pos heq] at hbit
        cases hbit
      · rw [if_neg heq] at hbit
        obtain ⟨tb, stb, hlb, hcidb⟩ := hinv.bits_st ei' c' hc2 hbit
        refine ⟨tb, ⟨stb.comp_id, stb.set.erase e.index⟩, ?_, hcidb⟩
        show List.lookup tb (w.component_storages.map
          (fun p => (p.1, (⟨p.2.comp_id, p.2.set.erase e.index⟩ : Storage V)))) =
          some ⟨stb.comp_id, stb.set.erase e.index⟩
        rw [lookup_map_erase]
        rw [show List.lookup tb w.component_storages = some stb from hlb]
        rfl
  · rw [if_neg halive]
    exact hinv

/-! ### Remaining operations and the reachability invariant -/

theorem maskFoldStep_eq {V : Type} (mv : List Nat) (w : ECS V) (t : Nat) :
    maskFoldStep (mv, w) t =
      (set_bit_in_mask mv (ECS.component_id w t).1, (ECS.component_id w t).2) :=
  rfl

theorem maskFoldStep_hit {V : Type} {w : ECS V} {t c : Nat}
    (hl : w.lookupId t = some c) (mv : List Nat) :
    maskFoldStep (mv, w) t = (set_bit_in_mask mv c, w) := by
  unfold maskFoldStep
  rw [component_id_hit hl]

theorem inv_maskFold {V : Type} :
    ∀ (tags : List Nat) (mv : List Nat) (w : ECS V), INV w →
      INV ((tags.foldl maskFoldStep (mv, w)).2) := by
  intro tags
  induction tags with
  | nil => intro mv w hinv; exact hinv
  | cons t ts ih =>
    intro mv w hinv
    rw [List.foldl_cons, maskFoldStep_eq]
    exact ih _ _ (inv_component_id hinv t).1

theorem maskFold_state_eq {V : Type} :
    ∀ (tags : List Nat) (mv : List Nat) (w : ECS V),
      (∀ t ∈ tags, w.lookupId t ≠ none) →
      (tags.foldl maskFoldStep (mv, w)).2 = w := by
  intro tags
  induction tags with
  | nil => intro mv w _; rfl
  | cons t ts ih =>
    intro mv w hreg
    rw [List.foldl_cons]
    cases hl : w.lookupId t with
    | none => exact absurd hl (hreg t (List.mem_cons_self t ts))
    | some c =>
      rw [maskFoldStep_hit hl mv]
      exact ih _ w (fun t' ht' => hreg t' (List.mem_cons_of_mem t ht'))

theorem inv_create_group {V : Type} {w : ECS V} (hinv : INV w)
    (tags : List Nat) : INV (w.create_group tags).2 := by
  show INV ((tags.foldl maskFoldStep (List.replicate w.mask_blocks 0, w)).2)
  exact inv_maskFold tags _ w hinv

theorem inv_get_comp {V : Type} {w : ECS V} (hinv : INV w) (e : Entity)
    (t : Nat) : INV (w.get_comp e t).2 := by
  show INV (w.get_or_create_storage t).2
  exact (inv_get_or_create hinv t).1

theorem inv_view {V : Type} {w : ECS V} (hinv : INV w) (t1 : Nat)
    (ts : List Nat) : INV (w.view t1 ts).2 := by
  unfold ECS.view
  split
  · exact hinv
  · split
    · exact hinv
    · split
      next req w3 heq2 =>
        show INV w3
        have h2 := inv_maskFold (t1 :: ts) (List.replicate w.mask_blocks 0)
          w hinv
        rw [heq2] at h2
        exact h2

theorem view_state_eq {V : Type} {w : ECS V} (hinv : INV w) (t1 : Nat)
    (ts : List Nat) : (w.view t1 ts).2 = w := by
  unfold ECS.view
  split
  · rfl
  · next s1 heq =>
    split
    · rfl
    · next hany =>
      split
      next req w3 heq2 =>
        show w3 = w
        have h2 := maskFold_state_eq (t1 :: ts) (List.replicate w.mask_blocks 0)
          w (by
            intro t ht hnone
            rcases List.mem_cons.1 ht with rfl | hts
            · have := hinv.st_reg t s1 heq
              rw [hnone] at this
              cases this
            · have hmem : (Option.isNone
                  (List.lookup t w.component_storages)) ≠ true := by
                intro hiso
                exact hany (List.any_eq_true.2
                  ⟨List.lookup t w.component_storages,
                    List.mem_map.2 ⟨t, hts, rfl⟩, hiso⟩)
              cases hlt : List.lookup t w.component_storages with
              | none =>
                rw [hlt] at hmem
                exact hmem rfl
              | some st =>
                have := hinv.st_reg t st hlt
                rw [hnone] at this
                cases this)
        rw [heq2] at h2
        exact h2

theorem inv_reachable {V : Type} {w : ECS V} (h : Reachable w) : INV w := by
  induction h with
  | init => exact INV_empty V
  | create _ ih => exact inv_create_entity ih
  | destroy e _ ih => exact inv_destroy_entity ih e
  | addStep e t v _ halive ih => exact inv_add ih t v halive
  | removeStep e t _ ih => exact inv_remove ih e t
  | getStep e t _ halive ih => exact inv_get_comp ih e t
  | groupStep tags _ ih => exact inv_create_group ih tags
  | viewStep t1 ts _ ih => exact inv_view ih t1 ts

/-! ## Claim theorems -/

theorem ensure_versions {V : Type} (w : ECS V) (n : Nat) :
    (w.ensure_entity_mask_size n).versions = w.versions := by
  unfold ECS.ensure_entity_mask_size
  split
  · rfl
  · split <;> rfl

theorem getv_empty (T : Type) (e : Nat) : (SparseSet.empty T).getv e = none := rfl

theorem contains_empty (T : Type) (e : Nat) :
    (SparseSet.empty T).contains e = false := rfl

theorem lookupStorage_none_of_id_none {V : Type} {w : ECS V} (hinv : INV w)
    {t : Nat} (h : w.lookupId t = none) : w.lookupStorage t = none := by
  cases hl : w.lookupStorage t with
  | none => rfl
  | some st =>
    have := hinv.st_reg t st hl
    rw [h] at this
    cases this

/-- C1: in every reachable registry state, for every registered component
type (tag `t`, storage `st` with id `st.comp_id`) and every entity slot
`e`, bit `st.comp_id` of slot `e`'s mask is set iff the sparse set of `st`
contains key `e`.  Reachability quantifies over all sequences of public
operations, so every operation preserves the correspondence and no
diverging state is observable between calls. -/
theorem C1_mask_storage_correspondence {V : Type} {w : ECS V}
    (hreach : Reachable w) (t : Nat) (st : Storage V)
    (hst : w.lookupStorage t = some st) (e : Nat) :
    w.test_entity_bit e st.comp_id = st.set.contains e :=
  (inv_reachable hreach).corr t st hst e

def C1w : ECS Nat := ECS.add (ECS.create_entity (ECS.empty Nat)).2 ⟨0, 1⟩ 0 42

def C1st : Storage Nat := ⟨0, (SparseSet.empty Nat).insert 0 42⟩

theorem C1_witness :
    C1w.test_entity_bit 0 C1st.comp_id = C1st.set.contains 0 :=
  C1_mask_storage_correspondence
    (Reachable.addStep ⟨0, 1⟩ 0 42 (Reachable.create Reachable.init)
      (by decide))
    0 C1st (by rfl) 0

/-- C2: inserting a previously absent key `k` and then erasing it leaves
`contains k` false and shrinks the dense size by exactly one relative to
the post-insert state; erasing preserves membership and the stored values
of every other key (swap-remove correctness). -/
theorem C2_insert_erase_round_trip (T : Type) (s : SparseSet T) (hwf : SSWF s)
    (k : Nat) (v : T) (hk : s.contains k = false) :
    ((s.insert k v).erase k).contains k = false ∧
    ((s.insert k v).erase k).size + 1 = (s.insert k v).size ∧
    (∀ k', k' ≠ k →
      (((s.insert k v).erase k).contains k' = (s.insert k v).contains k' ∧
        ((s.insert k v).erase k).getv k' = (s.insert k v).getv k')) := by
  have hwf1 := SSWF_insert hwf k v
  have hc1 : (s.insert k v).contains k = true := by
    rw [contains_insert hwf k v k]
    simp
  refine ⟨?_, ?_, ?_⟩
  · rw [contains_erase hwf1 k k]
    simp
  · rw [size_erase hwf1 k, if_pos hc1]
    have hpos : 0 < (s.insert k v).size := by
      obtain ⟨i, hi, hd⟩ := contains_true_elim hc1
      show 0 < (s.insert k v).dense_entities.length
      rcases List.getElem?_eq_some_iff.1 hd with ⟨hl, _⟩
      omega
    omega
  · intro k' hk'
    constructor
    · rw [contains_erase hwf1 k k',
        show (k' != k) = true from by simp [hk'], Bool.and_true]
    · exact getv_erase_other hwf1 hk'

def C2s : SparseSet Nat :=
  ((((SparseSet.empty Nat).insert 1 1).insert 2 2).insert 4 4).insert 5 5

theorem C2_witness :
    C2s.contains 3 = false ∧
    ((C2s.insert 3 3).erase 3).contains 3 = false ∧
    ((C2s.insert 3 3).erase 3).size + 1 = (C2s.insert 3 3).size ∧
    (((C2s.insert 3 3).erase 3).contains 1 = (C2s.insert 3 3).contains 1 ∧
      ((C2s.insert 3 3).erase 3).getv 1 = (C2s.insert 3 3).getv 1) := by
  have hk : C2s.contains 3 = false := by
    unfold C2s
    rw [contains_insert (SSWF_insert (SSWF_insert (SSWF_insert
          (SSWF_empty Nat) 1 1) 2 2) 4 4) 5 5 3,
        contains_insert (SSWF_insert (SSWF_insert (SSWF_empty Nat) 1 1)
          2 2) 4 4 3,
        contains_insert (SSWF_insert (SSWF_empty Nat) 1 1) 2 2 3,
        contains_insert (SSWF_empty Nat) 1 1 3,
        contains_empty]
    rfl
  have h := C2_insert_erase_round_trip Nat C2s
    (SSWF_insert (SSWF_insert (SSWF_insert (SSWF_insert (SSWF_empty Nat) 1 1)
      2 2) 4 4) 5 5) 3 3 hk
  exact ⟨hk, h.1, h.2.1, h.2.2 1 (by decide)⟩

/-- C4: destroying a live entity and immediately creating a new entity
recycles the same slot index with a strictly different (incremented)
generation; `is_alive` is false on the stale handle and true on the new
one. -/
theorem C4_generation_recycling {V : Type} (w : ECS V) (e : Entity)
    (halive : w.is_alive e = true) :
    ((w.destroy_entity e).create_entity).1.index = e.index ∧
    ((w.destroy_entity e).create_entity).1.version = e.version + 1 ∧
    ((w.destroy_entity e).create_entity).1.version ≠ e.version ∧
    (w.destroy_entity e).is_alive e = false ∧
    ((w.destroy_entity e).create_entity).2.is_alive e = false ∧
    ((w.destroy_entity e).create_entity).2.is_alive
      ((w.destroy_entity e).create_entity).1 = true := by
  have hei : e.index < w.versions.length := is_alive_index_lt halive
  have hv : w.versions.getD e.index 0 = e.version := is_alive_version_eq halive
  have hd : w.destroy_entity e =
      { w with
        versions := w.versions.set e.index (w.versions.getD e.index 0 + 1),
        component_storages := w.component_storages.map
          (fun p => (p.1, ⟨p.2.comp_id, p.2.set.erase e.index⟩)),
        entity_masks :=
          if 0 < w.mask_blocks then
            clear_mask w.entity_masks (e.index * w.mask_blocks) w.mask_blocks
          else w.entity_masks,
        free_list := w.free_list ++ [e.index] } := by
    unfold ECS.destroy_entity
    rw [if_pos halive]
  have hfl : (w.destroy_entity e).free_list.getLast? = some e.index := by
    rw [hd]
    exact List.getLast?_concat _
  have hvd : (w.destroy_entity e).versions.getD e.index 0 = e.version + 1 := by
    rw [hd]
    show (w.versions.set e.index (w.versions.getD e.index 0 + 1)).getD
      e.index 0 = e.version + 1
    rw [getD_set_self hei, hv]
  have hvl : e.index < (w.destroy_entity e).versions.length := by
    rw [hd]
    show e.index < (w.versions.set e.index _).length
    rw [List.length_set]
    exact hei
  have hce : ((w.destroy_entity e).create_entity) =
      (⟨e.index, (w.destroy_entity e).versions.getD e.index 0⟩,
        ECS.ensure_entity_mask_size
          { w.destroy_entity e with
            free_list := (w.destroy_entity e).free_list.dropLast }
          (e.index + 1)) := by
    unfold ECS.create_entity
    rw [hfl]
  have hv2 : ((w.destroy_entity e).create_entity).2.versions =
      (w.destroy_entity e).versions := by
    rw [hce, ensure_versions]
  refine ⟨by rw [hce], by rw [hce, hvd],
    by rw [hce, hvd]; exact Nat.succ_ne_self e.version, ?_, ?_, ?_⟩
  · unfold ECS.is_alive
    rw [hvd]
    have : (e.version + 1 == e.version) = false := by simp
    rw [this, Bool.and_false]
  · unfold ECS.is_alive
    rw [hv2, hvd]
    have : (e.version + 1 == e.version) = false := by simp
    rw [this, Bool.and_false]
  · unfold ECS.is_alive
    rw [hv2, hce]
    show (decide (e.index < (w.destroy_entity e).versions.length) &&
      ((w.destroy_entity e).versions.getD e.index 0 ==
        (w.destroy_entity e).versions.getD e.index 0)) = true
    rw [decide_eq_true hvl]
    simp

theorem C4_witness :
    (((ECS.create_entity (ECS.empty Nat)).2.destroy_entity
        ⟨0, 1⟩).create_entity).1.version ≠ (1 : Nat) ∧
    ((ECS.create_entity (ECS.empty Nat)).2.destroy_entity
        ⟨0, 1⟩).is_alive ⟨0, 1⟩ = false ∧
    (((ECS.create_entity (ECS.empty Nat)).2.destroy_entity
        ⟨0, 1⟩).create_entity).2.is_alive
      (((ECS.create_entity (ECS.empty Nat)).2.destroy_entity
        ⟨0, 1⟩).create_entity).1 = true := by
  have h := C4_generation_recycling (ECS.create_entity (ECS.empty Nat)).2
    ⟨0, 1⟩ (by decide)
  exact ⟨h.2.2.1, h.2.2.2.1, h.2.2.2.2.2⟩

/-- C7: re-inserting an existing key overwrites the stored value in place:
`getv` returns the new value, the dense size and the whole dense key array
are unchanged (no reordering), and every other key still maps to its old
value. -/
theorem C7_insert_overwrite (T : Type) (s : SparseSet T) (hwf : SSWF s)
    (k : Nat) (v1 v2 : T) :
    ((s.insert k v1).insert k v2).getv k = some v2 ∧
    ((s.insert k v1).insert k v2).size = (s.insert k v1).size ∧
    ((s.insert k v1).insert k v2).dense_entities =
      (s.insert k v1).dense_entities ∧
    (∀ k', k' ≠ k →
      ((s.insert k v1).insert k v2).getv k' = (s.insert k v1).getv k') := by
  have hwf1 := SSWF_insert hwf k v1
  have hc1 : (s.insert k v1).contains k = true := by
    rw [contains_insert hwf k v1 k]
    simp
  obtain ⟨idx, hs, hd⟩ := contains_true_elim hc1
  refine ⟨getv_insert_self hwf1 k v2, ?_, ?_,
    fun k' hk' => getv_insert_other hwf1 hk' v2⟩
  · rw [insert_spec_overwrite hc1 hs v2]
    rfl
  · rw [insert_spec_overwrite hc1 hs v2]

theorem C7_witness :
    (((SparseSet.empty Nat).insert 7 10).insert 7 20).getv 7 = some 20 ∧
    (((SparseSet.empty Nat).insert 7 10).insert 7 20).size =
      ((SparseSet.empty Nat).insert 7 10).size ∧
    (((SparseSet.empty Nat).insert 7 10).insert 7 20).dense_entities =
      ((SparseSet.empty Nat).insert 7 10).dense_entities := by
  have h := C7_insert_overwrite Nat (SparseSet.empty Nat) (SSWF_empty Nat)
    7 10 20
  exact ⟨h.1, h.2.1, h.2.2.1⟩

/-- C5: `destroy_entity` is a no-op on any non-live handle; on a live
handle it bumps the slot's stored generation, erases the slot index from
every registered storage (so no storage still contains it), zeroes every
block of the slot's mask row, appends the index to the free list, and
afterwards `has` is false for the handle on every tag. -/
theorem C5_destroy_entity_spec {V : Type} {w : ECS V} (hreach : Reachable w)
    (e : Entity) :
    (w.is_alive e = false → w.destroy_entity e = w) ∧
    (w.is_alive e = true →
      ((w.destroy_entity e).versions =
          w.versions.set e.index (e.version + 1) ∧
        (∀ t st, w.lookupStorage t = some st →
          ((w.destroy_entity e).lookupStorage t =
              some ⟨st.comp_id, st.set.erase e.index⟩ ∧
            (st.set.erase e.index).contains e.index = false ∧
            e.index ∉ (st.set.erase e.index).dense_entities)) ∧
        (∀ b, b < w.mask_blocks →
          (w.destroy_entity e).entity_masks.getD
            (e.index * w.mask_blocks + b) 0 = 0) ∧
        (w.destroy_entity e).free_list = w.free_list ++ [e.index] ∧
        (∀ t, (w.destroy_entity e).has e t = false))) := by
  have hinv := inv_reachable hreach
  constructor
  · intro hdead
    unfold ECS.destroy_entity
    rw [hdead]
    rfl
  · intro halive
    have hei : e.index < w.versions.length := is_alive_index_lt halive
    have hv : w.versions.getD e.index 0 = e.version := is_alive_version_eq halive
    have hd : w.destroy_entity e =
        { w with
          versions := w.versions.set e.index (w.versions.getD e.index 0 + 1),
          component_storages := w.component_storages.map
            (fun p => (p.1, ⟨p.2.comp_id, p.2.set.erase e.index⟩)),
          entity_masks :=
            if 0 < w.mask_blocks then
              clear_mask w.entity_masks (e.index * w.mask_blocks) w.mask_blocks
            else w.entity_masks,
          free_list := w.free_list ++ [e.index] } := by
      unfold ECS.destroy_entity
      rw [if_pos halive]
    refine ⟨?_, ?_, ?_, ?_, ?_⟩
    · rw [hd]
      show w.versions.set e.index (w.versions.getD e.index 0 + 1) = _
      rw [hv]
    · intro t st hst
      have hwfst := hinv.st_wf t st hst
      refine ⟨?_, ?_, ?_⟩
      · rw [hd]
        show List.lookup t (w.component_storages.map
            (fun p => (p.1,
              (⟨p.2.comp_id, p.2.set.erase e.index⟩ : Storage V)))) =
          some (⟨st.comp_id, st.set.erase e.index⟩ : Storage V)
        rw [lookup_map_erase,
          show List.lookup t w.component_storages = some st from hst]
        rfl
      · rw [contains_erase hwfst e.index e.index]
        simp
      · intro hmem
        have hc := (contains_iff_mem (SSWF_erase hwfst e.index) e.index).2 hmem
        rw [contains_erase hwfst e.index e.index] at hc
        simp at hc
    · intro b hb
      rw [hd]
      show (if 0 < w.mask_blocks then
          clear_mask w.entity_masks (e.index * w.mask_blocks) w.mask_blocks
        else w.entity_masks).getD (e.index * w.mask_blocks + b) 0 = 0
      rw [if_pos (show 0 < w.mask_blocks by omega)]
      exact clear_getD_in w.entity_masks (e.index * w.mask_blocks)
        w.mask_blocks hb
    · rw [hd]
    · intro t
      have hvd : (w.destroy_entity e).versions.getD e.index 0 = e.version + 1 := by
        rw [hd]
        show (w.versions.set e.index (w.versions.getD e.index 0 + 1)).getD
          e.index 0 = e.version + 1
        rw [getD_set_self hei, hv]
      have hdead2 : (w.destroy_entity e).is_alive e = false := by
        unfold ECS.is_alive
        rw [hvd]
        have hne : (e.version + 1 == e.version) = false := by simp
        rw [hne, Bool.and_false]
      unfold ECS.has
      rw [hdead2]
      rfl

theorem C5_witness :
    ((ECS.create_entity (ECS.empty Nat)).2.destroy_entity ⟨0, 1⟩).versions =
      (ECS.create_entity (ECS.empty Nat)).2.versions.set 0 2 ∧
    ((ECS.create_entity (ECS.empty Nat)).2.destroy_entity ⟨0, 1⟩).free_list =
      (ECS.create_entity (ECS.empty Nat)).2.free_list ++ [0] ∧
    ((ECS.create_entity (ECS.empty Nat)).2.destroy_entity
        ⟨0, 1⟩).has ⟨0, 1⟩ 0 = false := by
  have h := (C5_destroy_entity_spec
    (Reachable.create Reachable.init :
      Reachable (ECS.create_entity (ECS.empty Nat)).2) ⟨0, 1⟩).2 (by decide)
  exact ⟨h.1, h.2.2.2.1, h.2.2.2.2 0⟩

/-- C9: when tag `t` was never registered, `has` answers `false` for every
handle without creating anything, `remove` returns the state unchanged (no
registration, no storage creation), while `get` registers `t` as a side
effect — the registered-type count grows by one, `t` maps to the fresh id,
an empty storage for `t` exists afterwards — and the lookup itself yields
no component. -/
theorem C9_has_remove_create_nothing_get_registers {V : Type} {w : ECS V}
    (hreach : Reachable w) (e : Entity) (t : Nat)
    (halive : w.is_alive e = true) (hunreg : w.lookupId t = none) :
    (w.remove e t = w ∧ (∀ e2 : Entity, w.has e2 t = false)) ∧
    ((w.get_comp e t).1 = none ∧
      (w.get_comp e t).2.component_count = w.component_count + 1 ∧
      (w.get_comp e t).2.lookupId t = some w.component_count ∧
      (w.get_comp e t).2.lookupStorage t =
        some ⟨w.component_count, SparseSet.empty V⟩) := by
  have hinv := inv_reachable hreach
  have hstnone : w.lookupStorage t = none :=
    lookupStorage_none_of_id_none hinv hunreg
  have hcm := component_id_miss hunreg
  have hgm := get_or_create_miss hstnone
  obtain ⟨hinv1, hid, hlt, hver, hsto, hframe⟩ := inv_component_id hinv t
  constructor
  · constructor
    · unfold ECS.remove
      rw [show List.lookup t w.component_storages = none from hstnone]
      cases h2 : w.is_alive e <;> rfl
    · intro e2
      unfold ECS.has
      rw [show List.lookup t w.component_storages = none from hstnone]
      cases h2 : w.is_alive e2 <;> rfl
  · refine ⟨?_, ?_, ?_, ?_⟩
    · unfold ECS.get_comp
      rw [hgm]
      rfl
    · unfold ECS.get_comp
      rw [hgm]
      show (w.component_id t).2.component_count = w.component_count + 1
      rw [hcm, expand_component_count]
    · unfold ECS.get_comp
      rw [hgm]
      show (w.component_id t).2.lookupId t = some w.component_count
      rw [hid, hcm]
    · unfold ECS.get_comp
      rw [hgm]
      show List.lookup t ((w.component_id t).2.component_storages ++
        [(t, ⟨(w.component_id t).1, SparseSet.empty V⟩)]) =
        some ⟨w.component_count, SparseSet.empty V⟩
      rw [hsto, lookup_append_none _
        (show List.lookup t w.component_storages = none from hstnone),
        lookup_single_self, hcm]

theorem C9_witness :
    ((ECS.create_entity (ECS.empty Nat)).2.remove ⟨0, 1⟩ 0 =
        (ECS.create_entity (ECS.empty Nat)).2 ∧
      (ECS.create_entity (ECS.empty Nat)).2.has ⟨0, 1⟩ 0 = false) ∧
    (((ECS.create_entity (ECS.empty Nat)).2.get_comp ⟨0, 1⟩ 0).1 = none ∧
      ((ECS.create_entity (ECS.empty Nat)).2.get_comp
          ⟨0, 1⟩ 0).2.component_count = 1) := by
  have h := C9_has_remove_create_nothing_get_registers
    (Reachable.create Reachable.init :
      Reachable (ECS.create_entity (ECS.empty Nat)).2) ⟨0, 1⟩ 0
    (by decide) (by rfl)
  exact ⟨⟨h.1.1, h.1.2 ⟨0, 1⟩⟩, ⟨h.2.1, h.2.2.1⟩⟩

theorem matches_group_narrow_eq {V : Type} (w : ECS V) (e : Entity) (g : Group)
    (hne : g.required_mask.length ≠ w.mask_blocks)
    (hle : g.required_mask.length ≤ w.mask_blocks) :
    w.matches_group e g =
      (w.is_alive e &&
        ((List.range g.required_mask.length).all
          (fun i => (w.emask e.index i &&& g.required_mask.getD i 0) ==
            g.required_mask.getD i 0))) := by
  have hmin : min g.required_mask.length w.mask_blocks =
      g.required_mask.length := Nat.min_eq_left hle
  unfold ECS.matches_group
  cases halive : w.is_alive e
  · rfl
  · rw [if_pos rfl, if_pos hne, hmin, Nat.sub_self,
      show List.range' g.required_mask.length 0 = [] from rfl,
      List.all_nil, Bool.and_true, Bool.true_and]

/-- C10: for a group whose required mask is narrower than the registry's
current mask width (as happens to groups built by `create_group` before
further component types were registered; its words are `uint64` values,
hence the `< 2 ^ 64` bound), `matches_group` still returns true exactly
when the handle is live and every set bit of the group's required mask is
set in the entity's mask row, and it returns false for every non-live
handle. -/
theorem C10_matches_group_narrow {V : Type} (w : ECS V) (e : Entity)
    (g : Group) (hlen : g.required_mask.length < w.mask_blocks)
    (hbound : ∀ x ∈ g.required_mask, x < 2 ^ BLOCK_BITS) :
    (w.matches_group e g = true ↔
      (w.is_alive e = true ∧
        ∀ b, test_vec_bit g.required_mask b = true →
          w.test_entity_bit e.index b = true)) ∧
    (w.is_alive e = false → w.matches_group e g = false) := by
  have hm := matches_group_narrow_eq w e g (Nat.ne_of_lt hlen)
    (Nat.le_of_lt hlen)
  constructor
  · rw [hm, Bool.and_eq_true]
    apply and_congr_right
    intro _
    rw [List.all_eq_true]
    constructor
    · intro hall b hb
      have hblt : b / BLOCK_BITS < g.required_mask.length := by
        by_contra hge
        push_neg at hge
        unfold test_vec_bit at hb
        rw [List.getD_eq_default _ _ hge] at hb
        simp at hb
      have hw := hall (b / BLOCK_BITS) (List.mem_range.2 hblt)
      rw [and_beq_self_iff] at hw
      unfold test_vec_bit at hb
      exact hw (b % BLOCK_BITS) hb
    · intro hbits i hi
      rw [List.mem_range] at hi
      rw [and_beq_self_iff]
      intro j hj
      have hjlt : j < BLOCK_BITS := by
        by_contra hge
        push_neg at hge
        have hx : g.required_mask.getD i 0 < 2 ^ BLOCK_BITS := by
          rw [List.getD_eq_getElem _ _ hi]
          exact hbound _ (List.getElem_mem hi)
        have hfalse : (g.required_mask.getD i 0).testBit j = false :=
          Nat.testBit_lt_two_pow
            (Nat.lt_of_lt_of_le hx (Nat.pow_le_pow_right (by decide) hge))
        rw [hfalse] at hj
        cases hj
      have hdiv : (i * BLOCK_BITS + j) / BLOCK_BITS = i := by
        rw [Nat.mul_comm, Nat.mul_add_div (by decide),
          Nat.div_eq_of_lt hjlt, Nat.add_zero]
      have hmod : (i * BLOCK_BITS + j) % BLOCK_BITS = j := by
        rw [Nat.mul_comm, Nat.mul_add_mod, Nat.mod_eq_of_lt hjlt]
      have hv : test_vec_bit g.required_mask (i * BLOCK_BITS + j) = true := by
        unfold test_vec_bit
        rw [hdiv, hmod]
        exact hj
      have := hbits (i * BLOCK_BITS + j) hv
      unfold ECS.test_entity_bit at this
      rw [hdiv, hmod] at this
      exact this
  · intro hdead
    rw [hm, hdead, Bool.false_and]

theorem C10_witness :
    (ECS.add (ECS.create_entity (ECS.empty Nat)).2 ⟨0, 1⟩ 0
        42).matches_group ⟨0, 1⟩ ⟨[]⟩ = true ↔
      ((ECS.add (ECS.create_entity (ECS.empty Nat)).2 ⟨0, 1⟩ 0
          42).is_alive ⟨0, 1⟩ = true ∧
        ∀ b, test_vec_bit [] b = true →
          (ECS.add (ECS.create_entity (ECS.empty Nat)).2 ⟨0, 1⟩ 0
            42).test_entity_bit 0 b = true) :=
  (C10_matches_group_narrow
    (ECS.add (ECS.create_entity (ECS.empty Nat)).2 ⟨0, 1⟩ 0 42) ⟨0, 1⟩ ⟨[]⟩
    (by decide) (by simp)).1

/-- C6 counterexample: a `view` over the never-seen tag `0` on a fresh
registry leaves the registered-type count at `0` instead of increasing it
to `1`: the early return on the missing driving storage fires before any
`component_id` call, so no id is ever assigned by `view`. -/
theorem C6_counterexample :
    (ECS.empty Nat).lookupId 0 = none ∧
    ¬ ((ECS.view (ECS.empty Nat) 0 []).2.component_count =
        (ECS.empty Nat).component_count + 1) := by
  exact ⟨rfl, by decide⟩

/-- C6 amended: `view` never registers anything — on every reachable state
it returns the registry unchanged (in particular the registered-type count
never increases), and whenever any of the requested storages is absent it
visits zero entities. -/
theorem C6_view_registers_nothing {V : Type} {w : ECS V}
    (hreach : Reachable w) (t1 : Nat) (ts : List Nat) :
    (w.view t1 ts).2 = w ∧
    (w.view t1 ts).2.component_count = w.component_count ∧
    ((w.lookupStorage t1 = none ∨ ∃ t ∈ ts, w.lookupStorage t = none) →
      (w.view t1 ts).1 = []) := by
  have hinv := inv_reachable hreach
  have hse := view_state_eq hinv t1 ts
  refine ⟨hse, by rw [hse], ?_⟩
  intro habs
  unfold ECS.view
  split
  · rfl
  · next s1 heq =>
    split
    · rfl
    · next hany =>
      exfalso
      rcases habs with h1 | ⟨t, ht, hnone⟩
      · rw [show w.lookupStorage t1 = List.lookup t1 w.component_storages
          from rfl, heq] at h1
        cases h1
      · apply hany
        rw [List.any_eq_true]
        refine ⟨List.lookup t w.component_storages,
          List.mem_map.2 ⟨t, ht, rfl⟩, ?_⟩
        rw [show List.lookup t w.component_storages = none from hnone]
        rfl

theorem C6_amended_witness :
    ((ECS.empty Nat).view 0 []).2 = ECS.empty Nat ∧
    ((ECS.empty Nat).view 0 []).2.component_count =
      (ECS.empty Nat).component_count ∧
    ((ECS.empty Nat).view 0 []).1 = [] := by
  have h := C6_view_registers_nothing
    (Reachable.init : Reachable (ECS.empty Nat)) 0 []
  exact ⟨h.1, h.2.1, h.2.2 (Or.inl rfl)⟩

theorem pad_zero_getD (mv : List Nat) (k i : Nat) :
    (mv ++ List.replicate k 0).getD i 0 = mv.getD i 0 := by
  rw [List.getD_eq_getElem?_getD, List.getD_eq_getElem?_getD]
  by_cases h : i < mv.length
  · rw [List.getElem?_append_left h]
  · push_neg at h
    rw [List.getElem?_append_right h, List.getElem?_replicate,
      List.getElem?_eq_none (by omega)]
    split
    · rfl
    · rfl

theorem set_bit_in_mask_eq (mv : List Nat) (bit : Nat) :
    set_bit_in_mask mv bit =
      (if mv.length ≤ bit / BLOCK_BITS then
          mv ++ List.replicate (bit / BLOCK_BITS + 1 - mv.length) 0
        else mv).set (bit / BLOCK_BITS)
        ((if mv.length ≤ bit / BLOCK_BITS then
            mv ++ List.replicate (bit / BLOCK_BITS + 1 - mv.length) 0
          else mv).getD (bit / BLOCK_BITS) 0 ||| (1 <<< (bit % BLOCK_BITS))) :=
  rfl

theorem set_bit_pad_len (mv : List Nat) (bit : Nat) :
    (if mv.length ≤ bit / BLOCK_BITS then
        mv ++ List.replicate (bit / BLOCK_BITS + 1 - mv.length) 0
      else mv).length = max mv.length (bit / BLOCK_BITS + 1) := by
  split
  next h => rw [List.length_append, List.length_replicate]; omega
  next h => omega

theorem set_bit_pad_getD (mv : List Nat) (bit j : Nat) :
    (if mv.length ≤ bit / BLOCK_BITS then
        mv ++ List.replicate (bit / BLOCK_BITS + 1 - mv.length) 0
      else mv).getD j 0 = mv.getD j 0 := by
  split
  · exact pad_zero_getD mv _ j
  · rfl

theorem set_bit_in_mask_length (mv : List Nat) (bit : Nat) :
    (set_bit_in_mask mv bit).length = max mv.length (bit / BLOCK_BITS + 1) := by
  rw [set_bit_in_mask_eq, List.length_set, set_bit_pad_len]

theorem set_bit_in_mask_getD (mv : List Nat) (bit i : Nat) :
    (set_bit_in_mask mv bit).getD i 0 =
      if i = bit / BLOCK_BITS then
        mv.getD i 0 ||| (1 <<< (bit % BLOCK_BITS))
      else mv.getD i 0 := by
  have hlt : bit / BLOCK_BITS < (if mv.length ≤ bit / BLOCK_BITS then
      mv ++ List.replicate (bit / BLOCK_BITS + 1 - mv.length) 0
    else mv).length := by
    rw [set_bit_pad_len]
    omega
  rw [set_bit_in_mask_eq]
  by_cases h : i = bit / BLOCK_BITS
  · rw [if_pos h, h, getD_set_self hlt, set_bit_pad_getD]
  · rw [if_neg h, getD_set_other (fun hc => h hc.symm), set_bit_pad_getD]

theorem test_set_bit_in_mask (mv : List Nat) (bit b : Nat) :
    test_vec_bit (set_bit_in_mask mv bit) b =
      (test_vec_bit mv b || b == bit) := by
  unfold test_vec_bit
  rw [set_bit_in_mask_getD]
  by_cases h : b / BLOCK_BITS = bit / BLOCK_BITS
  · rw [if_pos h, Nat.testBit_or, Nat.one_shiftLeft]
    have h2 : (2 ^ (bit % BLOCK_BITS)).testBit (b % BLOCK_BITS) =
        decide (b % BLOCK_BITS = bit % BLOCK_BITS) := by
      rw [Nat.testBit_two_pow]
      by_cases h3 : bit % BLOCK_BITS = b % BLOCK_BITS
      · rw [h3]
      · rw [decide_eq_false h3, decide_eq_false (fun hc => h3 hc.symm)]
    have h4 : (b % BLOCK_BITS = bit % BLOCK_BITS) ↔ (b = bit) := by
      constructor
      · intro hm
        have hb := Nat.div_add_mod b BLOCK_BITS
        have hbit := Nat.div_add_mod bit BLOCK_BITS
        rw [h, hm] at hb
        omega
      · intro hb
        rw [hb]
    rw [h2, nat_beq_eq_decide, show decide (b % BLOCK_BITS = bit % BLOCK_BITS) =
      decide (b = bit) from decide_eq_decide.2 h4]
  · rw [if_neg h, nat_beq_eq_decide,
      decide_eq_false (show ¬ b = bit from fun hc => h (by rw [hc])),
      Bool.or_false]

theorem getD_lt_of_words_lt (l : List Nat) (h : ∀ x ∈ l, x < 2 ^ BLOCK_BITS)
    (i : Nat) : l.getD i 0 < 2 ^ BLOCK_BITS := by
  by_cases hi : i < l.length
  · rw [List.getD_eq_getElem _ _ hi]
    exact h _ (List.getElem_mem hi)
  · rw [List.getD_eq_default _ _ (le_of_not_lt hi)]
    exact Nat.two_pow_pos _

theorem set_bit_in_mask_words_lt {mv : List Nat} (bit : Nat)
    (h : ∀ x ∈ mv, x < 2 ^ BLOCK_BITS) :
    ∀ x ∈ set_bit_in_mask mv bit, x < 2 ^ BLOCK_BITS := by
  intro x hx
  rw [set_bit_in_mask_eq] at hx
  have hpad : ∀ y ∈ (if mv.length ≤ bit / BLOCK_BITS then
      mv ++ List.replicate (bit / BLOCK_BITS + 1 - mv.length) 0
    else mv), y < 2 ^ BLOCK_BITS := by
    intro y hy
    by_cases hc : mv.length ≤ bit / BLOCK_BITS
    · rw [if_pos hc] at hy
      rcases List.mem_append.1 hy with h1 | h1
      · exact h y h1
      · rw [List.eq_of_mem_replicate h1]
        exact Nat.two_pow_pos _
    · rw [if_neg hc] at hy
      exact h y hy
  rcases List.mem_or_eq_of_mem_set hx with h1 | h1
  · exact hpad x h1
  · rw [h1]
    apply Nat.or_lt_two_pow
    · rw [set_bit_pad_getD]
      exact getD_lt_of_words_lt mv h _
    · rw [Nat.one_shiftLeft]
      exact Nat.pow_lt_pow_right (by decide)
        (Nat.mod_lt bit (by decide))

theorem test_vec_zero (n b : Nat) :
    test_vec_bit (List.replicate n 0) b = false := by
  unfold test_vec_bit
  have h : (List.replicate n (0 : Nat)).getD (b / BLOCK_BITS) 0 = 0 := by
    rw [List.getD_eq_getElem?_getD, List.getElem?_replicate]
    split
    · rfl
    · rfl
  rw [h]
  exact Nat.zero_testBit _

theorem cid_block_lt {V : Type} {w : ECS V} (hinv : INV w) {t c : Nat}
    (hl : w.lookupId t = some c) :
    c / BLOCK_BITS + 1 ≤ w.mask_blocks := by
  have h1 := hinv.ids_lt t c hl
  have h2 := hinv.mb_eq
  rw [show blocks_for_bits w.component_count =
    (w.component_count + 64 - 1) / 64 from rfl] at h2
  show c / 64 + 1 ≤ w.mask_blocks
  omega

theorem maskFold_spec {V : Type} {w : ECS V} (hinv : INV w) :
    ∀ (tags : List Nat) (mv : List Nat),
      (∀ t ∈ tags, w.lookupId t ≠ none) →
      mv.length ≤ w.mask_blocks →
      (∀ x ∈ mv, x < 2 ^ BLOCK_BITS) →
      ((tags.foldl maskFoldStep (mv, w)).2 = w ∧
        (tags.foldl maskFoldStep (mv, w)).1.length ≤ w.mask_blocks ∧
        (∀ x ∈ (tags.foldl maskFoldStep (mv, w)).1, x < 2 ^ BLOCK_BITS) ∧
        (∀ b, test_vec_bit (tags.foldl maskFoldStep (mv, w)).1 b = true ↔
          (test_vec_bit mv b = true ∨ ∃ t ∈ tags, w.lookupId t = some b))) := by
  intro tags
  induction tags with
  | nil =>
    intro mv _ hlen hbound
    refine ⟨rfl, hlen, hbound, ?_⟩
    intro b
    constructor
    · intro h
      exact Or.inl h
    · intro h
      rcases h with h | ⟨t, ht, _⟩
      · exact h
      · exact absurd ht (List.not_mem_nil t)
  | cons t rest ih =>
    intro mv hreg hlen hbound
    cases hl : w.lookupId t with
    | none => exact absurd hl (hreg t (List.mem_cons_self t rest))
    | some c =>
      rw [List.foldl_cons, maskFoldStep_hit hl mv]
      have hlen2 : (set_bit_in_mask mv c).length ≤ w.mask_blocks := by
        rw [set_bit_in_mask_length]
        have := cid_block_lt hinv hl
        omega
      have hbound2 := set_bit_in_mask_words_lt c hbound
      obtain ⟨ha1, ha2, ha3, ha4⟩ := ih (set_bit_in_mask mv c)
        (fun t2 ht2 => hreg t2 (List.mem_cons_of_mem t ht2)) hlen2 hbound2
      refine ⟨ha1, ha2, ha3, ?_⟩
      intro b
      rw [ha4 b, test_set_bit_in_mask]
      constructor
      · intro h
        rcases h with h | ⟨t2, ht2, hl2⟩
        · rw [Bool.or_eq_true] at h
          rcases h with h | h
          · exact Or.inl h
          · refine Or.inr ⟨t, List.mem_cons_self t rest, ?_⟩
            rw [show b = c from by
              rw [nat_beq_eq_decide] at h
              exact of_decide_eq_true h]
            exact hl
        · exact Or.inr ⟨t2, List.mem_cons_of_mem t ht2, hl2⟩
      · intro h
        rcases h with h | ⟨t2, ht2, hl2⟩
        · exact Or.inl (by rw [h, Bool.true_or])
        · rcases List.mem_cons.1 ht2 with he | he
          · rw [he, hl] at hl2
            have hbc : c = b := Option.some.inj hl2
            refine Or.inl ?_
            rw [← hbc, beq_self_eq_true, Bool.or_true]
          · exact Or.inr ⟨t2, he, hl2⟩

theorem mask_match_row_iff {V : Type} (w : ECS V) (ei : Nat) (req : List Nat)
    (hlen : req.length ≤ w.mask_blocks)
    (hbound : ∀ x ∈ req, x < 2 ^ BLOCK_BITS) :
    w.mask_match_row ei req = true ↔
      (∀ b, test_vec_bit req b = true → w.test_entity_bit ei b = true) := by
  unfold ECS.mask_match_row
  rw [List.all_eq_true]
  constructor
  · intro hall b hb
    unfold test_vec_bit at hb
    have hblt : b / BLOCK_BITS < req.length := by
      by_contra hge
      push_neg at hge
      rw [List.getD_eq_default _ _ hge] at hb
      simp at hb
    have hw := hall (b / BLOCK_BITS)
      (List.mem_range.2 (Nat.lt_of_lt_of_le hblt hlen))
    rw [and_beq_self_iff] at hw
    exact hw (b % BLOCK_BITS) hb
  · intro hbits i hi
    rw [List.mem_range] at hi
    rw [and_beq_self_iff]
    intro j hj
    have hjlt : j < BLOCK_BITS := by
      by_contra hge
      push_neg at hge
      have hx : req.getD i 0 < 2 ^ BLOCK_BITS :=
        getD_lt_of_words_lt req hbound i
      have hfalse : (req.getD i 0).testBit j = false :=
        Nat.testBit_lt_two_pow
          (Nat.lt_of_lt_of_le hx (Nat.pow_le_pow_right (by decide) hge))
      rw [hfalse] at hj
      cases hj
    have hdiv : (i * BLOCK_BITS + j) / BLOCK_BITS = i := by
      rw [Nat.mul_comm, Nat.mul_add_div (by decide),
        Nat.div_eq_of_lt hjlt, Nat.add_zero]
    have hmod : (i * BLOCK_BITS + j) % BLOCK_BITS = j := by
      rw [Nat.mul_comm, Nat.mul_add_mod, Nat.mod_eq_of_lt hjlt]
    have hv : test_vec_bit req (i * BLOCK_BITS + j) = true := by
      unfold test_vec_bit
      rw [hdiv, hmod]
      exact hj
    have h2 := hbits (i * BLOCK_BITS + j) hv
    unfold ECS.test_entity_bit at h2
    rw [hdiv, hmod] at h2
    exact h2


theorem dense_nodup {T : Type} {s : SparseSet T} (hwf : SSWF s) :
    s.dense_entities.Nodup := by
  rw [List.nodup_iff_injective_get]
  intro i j hij
  have hi : s.dense_entities[i.1]? = some (s.dense_entities.get i) :=
    List.getElem?_eq_getElem i.2
  have hj : s.dense_entities[j.1]? = some (s.dense_entities.get j) :=
    List.getElem?_eq_getElem j.2
  rw [hij] at hi
  have h1 := hwf.denseToSparse i.1 _ hi
  have h2 := hwf.denseToSparse j.1 _ hj
  exact Fin.eq_of_val_eq (Option.some.inj (h1.symm.trans h2))

theorem foldl_minby_mem {V : Type} :
    ∀ (l : List (Storage V)) (init : Storage V),
      l.foldl (fun b st => if st.set.size < b.set.size then st else b) init ∈
        init :: l := by
  intro l
  induction l with
  | nil => intro init; exact List.mem_cons_self _ _
  | cons st rest ih =>
    intro init
    rw [List.foldl_cons]
    rcases List.mem_cons.1
        (ih (if st.set.size < init.set.size then st else init)) with h | h
    · rw [h]
      by_cases hc : st.set.size < init.set.size
      · rw [if_pos hc]
        exact List.mem_cons_of_mem _ (List.mem_cons_self _ _)
      · rw [if_neg hc]
        exact List.mem_cons_self _ _
    · exact List.mem_cons_of_mem _ (List.mem_cons_of_mem _ h)

theorem count_filterMap_guard (p : Nat → Bool) :
    ∀ (l : List Nat) (k : Nat),
      (l.filterMap (fun x => if p x then some x else none)).count k =
        if p k then l.count k else 0 := by
  intro l
  induction l with
  | nil =>
    intro k
    split
    · rfl
    · rfl
  | cons x xs ih =>
    intro k
    rw [List.filterMap_cons]
    by_cases hp : p x
    · rw [if_pos hp, List.count_cons, ih k, List.count_cons]
      by_cases hk : p k
      · rw [if_pos hk, if_pos hk]
      · rw [if_neg hk, if_neg hk]
        have hkx : (x == k) = false := by
          rw [nat_beq_eq_decide]
          exact decide_eq_false (fun hc => hk (by rw [← hc]; exact hp))
        rw [hkx]
        rfl
    · rw [if_neg hp, ih k]
      by_cases hk : p k
      · rw [if_pos hk, if_pos hk, List.count_cons]
        have hkx : (x == k) = false := by
          rw [nat_beq_eq_decide]
          exact decide_eq_false (fun hc => hp (by rw [hc]; exact hk))
        rw [hkx]
        rfl
      · rw [if_neg hk, if_neg hk]

theorem has_eq_of_lookup {V : Type} {w : ECS V} {t : Nat} {st : Storage V}
    (h : w.lookupStorage t = some st) (e : Entity) :
    w.has e t = (w.is_alive e && st.set.contains e.index) := by
  unfold ECS.has
  rw [show List.lookup t w.component_storages = some st from h]
  cases ha : w.is_alive e <;> rfl

theorem alive_getD_self {V : Type} {w : ECS V} {ei : Nat}
    (h : ei < w.versions.length) :
    w.is_alive ⟨ei, w.versions.getD ei 0⟩ = true := by
  show (decide (ei < w.versions.length) &&
    (w.versions.getD ei 0 == w.versions.getD ei 0)) = true
  rw [decide_eq_true h, beq_self_eq_true, Bool.and_true]

theorem view_main_eq {V : Type} {w : ECS V} {t1 : Nat} {ts : List Nat}
    {s1 : Storage V} {req : List Nat} {w3 : ECS V}
    (h1 : w.lookupStorage t1 = some s1)
    (hall : ((ts.map (fun t => List.lookup t w.component_storages)).any
      Option.isNone) = false)
    (hfe : (t1 :: ts).foldl maskFoldStep
      (List.replicate w.mask_blocks 0, w) = (req, w3)) :
    w.view t1 ts =
      (((s1 :: ts.filterMap (fun t => List.lookup t w.component_storages)).foldl
          (fun b st => if st.set.size < b.set.size then st else b)
          s1).set.dense_entities.filterMap
        (fun ei =>
          if ECS.mask_match_row w3 ei req then
            some (⟨ei, w3.versions.getD ei 0⟩,
              (t1 :: ts).map (fun t =>
                match List.lookup t w3.component_storages with
                | some st => st.set.getv ei
                | none => none))
          else none), w3) := by
  unfold ECS.view
  rw [show List.lookup t1 w.component_storages = some s1 from h1]
  show (if (ts.map (fun t => List.lookup t w.component_storages)).any
      Option.isNone then ([], w)
    else
      match (t1 :: ts).foldl maskFoldStep
        (List.replicate w.mask_blocks 0, w) with
      | (req, w3) =>
        (((s1 :: ts.filterMap
            (fun t => List.lookup t w.component_storages)).foldl
            (fun b st => if st.set.size < b.set.size then st else b)
            s1).set.dense_entities.filterMap
          (fun ei =>
            if ECS.mask_match_row w3 ei req then
              some ((⟨ei, w3.versions.getD ei 0⟩ : Entity),
                (t1 :: ts).map (fun t =>
                  match List.lookup t w3.component_storages with
                  | some st => st.set.getv ei
                  | none => none))
            else none), w3)) = _
  rw [hall, hfe]
  rfl

/-- C8: every component value fetched during a `view` traversal is present:
for every visited entry the per-type lookups all succeed (`isSome`), i.e.
the `SparseSet::get` precondition (`contains`) holds for each of the
requested types at every bitmask-matched entity, so the contract-failure
branch (modelled by `none`) is unreachable. -/
theorem C8_view_fetches_present {V : Type} {w : ECS V} (hreach : Reachable w)
    (t1 : Nat) (ts : List Nat) :
    ∀ p ∈ (w.view t1 ts).1, ∀ v ∈ p.2, v.isSome = true := by
  have hinv := inv_reachable hreach
  intro p hp v hv
  cases hl1 : List.lookup t1 w.component_storages with
  | none =>
    have hnil : (w.view t1 ts).1 = [] := by
      unfold ECS.view
      rw [hl1]
    rw [hnil] at hp
    cases hp
  | some s1 =>
    cases hany : ((ts.map (fun t => List.lookup t w.component_storages)).any
      Option.isNone) with
    | true =>
      have hnil : (w.view t1 ts).1 = [] := by
        unfold ECS.view
        rw [hl1]
        show (if (ts.map (fun t => List.lookup t w.component_storages)).any
            Option.isNone then (([] : List (Entity × List (Option V))), w)
          else _).1 = []
        rw [hany]
        rfl
      rw [hnil] at hp
      cases hp
    | false =>
      have hreg : ∀ t ∈ t1 :: ts, ∃ st, w.lookupStorage t = some st := by
        intro t ht
        rcases List.mem_cons.1 ht with he | he
        · exact ⟨s1, by rw [he]; exact hl1⟩
        · cases hlt : List.lookup t w.component_storages with
          | some st => exact ⟨st, hlt⟩
          | none =>
            exfalso
            have hmem : (none : Option (Storage V)) ∈
                ts.map (fun t => List.lookup t w.component_storages) := by
              rw [← hlt]
              exact List.mem_map.2 ⟨t, he, rfl⟩
            have := List.any_eq_false.1 hany _ hmem
            simp at this
      have hregid : ∀ t ∈ t1 :: ts, w.lookupId t ≠ none := by
        intro t ht
        obtain ⟨st, hst⟩ := hreg t ht
        rw [hinv.st_reg t st hst]
        intro hc
        cases hc
      obtain ⟨hw3, hrlen, hrbound, hrbits⟩ := maskFold_spec hinv (t1 :: ts)
        (List.replicate w.mask_blocks 0) hregid
        (by rw [List.length_replicate])
        (fun x hx => by
          rw [List.eq_of_mem_replicate hx]
          exact Nat.two_pow_pos _)
      cases hfe : (t1 :: ts).foldl maskFoldStep
          (List.replicate w.mask_blocks 0, w) with
      | mk req w3 =>
        rw [hfe] at hw3 hrlen hrbound hrbits
        have hw3' : w3 = w := hw3
        have hrlen' : req.length ≤ w.mask_blocks := hrlen
        have hrbound' : ∀ x ∈ req, x < 2 ^ BLOCK_BITS := hrbound
        have hrbits' : ∀ b, test_vec_bit req b = true ↔
            (test_vec_bit (List.replicate w.mask_blocks 0) b = true ∨
              ∃ t ∈ t1 :: ts, w.lookupId t = some b) := hrbits
        have hveq := view_main_eq (show w.lookupStorage t1 = some s1
          from hl1) hany hfe
        rw [show (w.view t1 ts).1 =
          (((s1 :: ts.filterMap
              (fun t => List.lookup t w.component_storages)).foldl
              (fun b st => if st.set.size < b.set.size then st else b)
              s1).set.dense_entities.filterMap
            (fun ei =>
              if ECS.mask_match_row w3 ei req then
                some (⟨ei, w3.versions.getD ei 0⟩,
                  (t1 :: ts).map (fun t =>
                    match List.lookup t w3.component_storages with
                    | some st => st.set.getv ei
                    | none => none))
              else none)) from by rw [hveq]] at hp
        obtain ⟨ei, hei, hfei⟩ := List.mem_filterMap.1 hp
        by_cases hmatch : ECS.mask_match_row w3 ei req = true
        · rw [if_pos hmatch] at hfei
          have hpe := Option.some.inj hfei
          rw [← hpe] at hv
          obtain ⟨t, ht, hveq2⟩ := List.mem_map.1 hv
          obtain ⟨st, hst⟩ := hreg t ht
          rw [hw3', show List.lookup t w.component_storages = some st
            from hst] at hveq2
          rw [← hveq2]
          show (st.set.getv ei).isSome = true
          apply getv_isSome_of_contains (hinv.st_wf t st hst)
          rw [← hinv.corr t st hst ei]
          rw [hw3'] at hmatch
          have hbit : test_vec_bit req st.comp_id = true := by
            rw [hrbits' st.comp_id]
            exact Or.inr ⟨t, ht, hinv.st_reg t st hst⟩
          exact (mask_match_row_iff w ei req hrlen' hrbound').1 hmatch
            st.comp_id hbit
        · rw [if_neg hmatch] at hfei
          cases hfei

theorem C8_witness : (some 42 : Option Nat).isSome = true := by
  refine C8_view_fetches_present
    (Reachable.addStep ⟨0, 1⟩ 0 42 (Reachable.create Reachable.init)
      (by decide))
    0 [] ((⟨0, 1⟩ : Entity), [some 42]) ?_ (some 42)
    (List.mem_cons_self _ _)
  have hfe : ([0] : List Nat).foldl maskFoldStep
      (List.replicate (ECS.add (ECS.create_entity (ECS.empty Nat)).2
          ⟨0, 1⟩ 0 42).mask_blocks 0,
        ECS.add (ECS.create_entity (ECS.empty Nat)).2 ⟨0, 1⟩ 0 42) =
      ([1], ECS.add (ECS.create_entity (ECS.empty Nat)).2 ⟨0, 1⟩ 0 42) := rfl
  have hveq := view_main_eq
    (show (ECS.add (ECS.create_entity (ECS.empty Nat)).2 ⟨0, 1⟩ 0
        42).lookupStorage 0 =
      some ⟨0, (SparseSet.empty Nat).insert 0 42⟩ from rfl)
    (show ((([] : List Nat)).map (fun t => List.lookup t
        (ECS.add (ECS.create_entity (ECS.empty Nat)).2 ⟨0, 1⟩ 0
          42).component_storages)).any Option.isNone = false from rfl)
    hfe
  rw [show (((ECS.add (ECS.create_entity (ECS.empty Nat)).2 ⟨0, 1⟩ 0
        42).view 0 []).1) =
    (((⟨0, (SparseSet.empty Nat).insert 0 42⟩ : Storage Nat) ::
        ([] : List Nat).filterMap (fun t => List.lookup t
          (ECS.add (ECS.create_entity (ECS.empty Nat)).2 ⟨0, 1⟩ 0
            42).component_storages)).foldl
        (fun b st => if st.set.size < b.set.size then st else b)
        (⟨0, (SparseSet.empty Nat).insert 0 42⟩ : Storage Nat)
      ).set.dense_entities.filterMap
      (fun x =>
        if ECS.mask_match_row
            (ECS.add (ECS.create_entity (ECS.empty Nat)).2 ⟨0, 1⟩ 0 42)
            x [1] then
          some ((⟨x, (ECS.add (ECS.create_entity (ECS.empty Nat)).2
              ⟨0, 1⟩ 0 42).versions.getD x 0⟩ : Entity),
            ([0] : List Nat).map (fun t =>
              match List.lookup t (ECS.add
                  (ECS.create_entity (ECS.empty Nat)).2
                  ⟨0, 1⟩ 0 42).component_storages with
              | some st => st.set.getv x
              | none => none))
        else none) from congrArg Prod.fst hveq]
  apply List.mem_filterMap.2
  refine ⟨0, ?_, ?_⟩
  · exact List.mem_cons_self 0 []
  · show (if ECS.mask_match_row
        (ECS.add (ECS.create_entity (ECS.empty Nat)).2 ⟨0, 1⟩ 0 42)
        0 [1] then
      some ((⟨0, (ECS.add (ECS.create_entity (ECS.empty Nat)).2
          ⟨0, 1⟩ 0 42).versions.getD 0 0⟩ : Entity),
        ([0] : List Nat).map (fun t =>
          match List.lookup t (ECS.add
              (ECS.create_entity (ECS.empty Nat)).2
              ⟨0, 1⟩ 0 42).component_storages with
          | some st => st.set.getv 0
          | none => none))
    else none) = some ((⟨0, 1⟩ : Entity), [some 42])
    rw [if_pos (show ECS.mask_match_row
      (ECS.add (ECS.create_entity (ECS.empty Nat)).2 ⟨0, 1⟩ 0 42)
      0 [1] = true from rfl)]
    rw [List.map_cons, List.map_nil]
    rw [show List.lookup 0 (ECS.add (ECS.create_entity (ECS.empty Nat)).2
        ⟨0, 1⟩ 0 42).component_storages =
      some (⟨0, (SparseSet.empty Nat).insert 0 42⟩ : Storage Nat) from rfl]
    rw [show (match (some (⟨0, (SparseSet.empty Nat).insert 0 42⟩ :
          Storage Nat)) with
        | some st => st.set.getv 0
        | none => none) =
      ((SparseSet.empty Nat).insert 0 42).getv 0 from rfl]
    rw [getv_insert_self (SSWF_empty Nat) 0 42]
    rfl

theorem count_visit_indices {V : Type} (w : ECS V) (req : List Nat)
    (fetch : Nat → List (Option V)) :
    ∀ (l : List Nat) (k : Nat),
      ((l.filterMap (fun x =>
          if ECS.mask_match_row w x req then
            some ((⟨x, w.versions.getD x 0⟩ : Entity), fetch x)
          else none)).map (fun p => p.1.index)).count k =
        if ECS.mask_match_row w k req then l.count k else 0 := by
  intro l
  induction l with
  | nil =>
    intro k
    split
    · rfl
    · rfl
  | cons x xs ih =>
    intro k
    rw [List.filterMap_cons]
    by_cases hx : ECS.mask_match_row w x req = true
    · rw [if_pos hx, List.map_cons, List.count_cons, ih k, List.count_cons]
      have hproj : ((⟨x, w.versions.getD x 0⟩ : Entity), fetch x).1.index
          = x := rfl
      rw [hproj]
      by_cases hk : ECS.mask_match_row w k req = true
      · rw [if_pos hk, if_pos hk]
      · rw [if_neg hk, if_neg hk]
        have hkx : (x == k) = false := by
          rw [nat_beq_eq_decide]
          exact decide_eq_false (fun hc => hk (by rw [← hc]; exact hx))
        rw [hkx]
        rfl
    · rw [if_neg hx, ih k]
      by_cases hk : ECS.mask_match_row w k req = true
      · rw [if_pos hk, if_pos hk, List.count_cons]
        have hkx : (x == k) = false := by
          rw [nat_beq_eq_decide]
          exact decide_eq_false (fun hc => hx (by rw [hc]; exact hk))
        rw [hkx]
        rfl
      · rw [if_neg hk, if_neg hk]

/-- C3: on any reachable state in which storages for both requested tags
exist, the traversal of `view` over the pair visits each entity-slot index
exactly once when both `has` checks hold for the slot's current handle,
and never otherwise — independently of the order in which the components
were attached (the state is arbitrary reachable). -/
theorem C3_view_visits_exactly_matching {V : Type} {w : ECS V}
    (hreach : Reachable w) (a b : Nat) {sa sb : Storage V}
    (ha : w.lookupStorage a = some sa) (hb : w.lookupStorage b = some sb)
    (ei : Nat) :
    ((w.view a [b]).1.map (fun p => p.1.index)).count ei =
      if w.has ⟨ei, w.versions.getD ei 0⟩ a = true ∧
          w.has ⟨ei, w.versions.getD ei 0⟩ b = true
        then 1 else 0 := by
  have hinv := inv_reachable hreach
  have hany : (([b].map (fun t => List.lookup t w.component_storages)).any
      Option.isNone) = false := by
    rw [List.map_cons, List.map_nil,
      show List.lookup b w.component_storages = some sb from hb]
    rfl
  have hfm : [b].filterMap (fun t => List.lookup t w.component_storages) =
      [sb] := by
    rw [List.filterMap_cons,
      show List.lookup b w.component_storages = some sb from hb]
    rfl
  have hregid : ∀ t ∈ a :: [b], w.lookupId t ≠ none := by
    intro t ht
    rcases List.mem_cons.1 ht with he | he
    · rw [he, hinv.st_reg a sa ha]
      intro hc
      cases hc
    · rcases List.mem_cons.1 he with he2 | he2
      · rw [he2, hinv.st_reg b sb hb]
        intro hc
        cases hc
      · exact absurd he2 (List.not_mem_nil t)
  obtain ⟨hw3, hrlen, hrbound, hrbits⟩ := maskFold_spec hinv (a :: [b])
    (List.replicate w.mask_blocks 0) hregid
    (by rw [List.length_replicate])
    (fun x hx => by
      rw [List.eq_of_mem_replicate hx]
      exact Nat.two_pow_pos _)
  cases hfe : (a :: [b]).foldl maskFoldStep
      (List.replicate w.mask_blocks 0, w) with
  | mk req w3 =>
    rw [hfe] at hw3 hrlen hrbound hrbits
    have hw3' : w3 = w := hw3
    have hrlen' : req.length ≤ w.mask_blocks := hrlen
    have hrbound' : ∀ x ∈ req, x < 2 ^ BLOCK_BITS := hrbound
    have hrbits' : ∀ bits, test_vec_bit req bits = true ↔
        (test_vec_bit (List.replicate w.mask_blocks 0) bits = true ∨
          ∃ t ∈ a :: [b], w.lookupId t = some bits) := hrbits
    have hreqbit : ∀ bits, test_vec_bit req bits = true ↔
        (bits = sa.comp_id ∨ bits = sb.comp_id) := by
      intro bits
      rw [hrbits' bits, test_vec_zero]
      constructor
      · intro h
        rcases h with h | ⟨t, ht, hl⟩
        · cases h
        · rcases List.mem_cons.1 ht with he | he
          · rw [he] at hl
            rw [hinv.st_reg a sa ha] at hl
            exact Or.inl (Option.some.inj hl).symm
          · rcases List.mem_cons.1 he with he2 | he2
            · rw [he2] at hl
              rw [hinv.st_reg b sb hb] at hl
              exact Or.inr (Option.some.inj hl).symm
            · exact absurd he2 (List.not_mem_nil t)
      · intro h
        rcases h with h | h
        · exact Or.inr ⟨a, List.mem_cons_self a [b],
            by rw [h]; exact hinv.st_reg a sa ha⟩
        · exact Or.inr ⟨b, List.mem_cons_of_mem a (List.mem_cons_self b []),
            by rw [h]; exact hinv.st_reg b sb hb⟩
    have hmm_iff : ECS.mask_match_row w ei req = true ↔
        (sa.set.contains ei = true ∧ sb.set.contains ei = true) := by
      rw [mask_match_row_iff w ei req hrlen' hrbound']
      constructor
      · intro h
        constructor
        · rw [← hinv.corr a sa ha ei]
          exact h sa.comp_id ((hreqbit sa.comp_id).2 (Or.inl rfl))
        · rw [← hinv.corr b sb hb ei]
          exact h sb.comp_id ((hreqbit sb.comp_id).2 (Or.inr rfl))
      · intro hpair
        intro bits hbit
        rcases (hreqbit bits).1 hbit with he | he
        · rw [he, hinv.corr a sa ha ei]
          exact hpair.1
        · rw [he, hinv.corr b sb hb ei]
          exact hpair.2
    have hveq := view_main_eq ha hany hfe
    rw [show (w.view a [b]).1 =
      ((sa :: [b].filterMap
          (fun t => List.lookup t w.component_storages)).foldl
          (fun b2 st => if st.set.size < b2.set.size then st else b2)
          sa).set.dense_entities.filterMap
        (fun x =>
          if ECS.mask_match_row w3 x req then
            some ((⟨x, w3.versions.getD x 0⟩ : Entity),
              (a :: [b]).map (fun t =>
                match List.lookup t w3.component_storages with
                | some st => st.set.getv x
                | none => none))
          else none) from by rw [hveq]]
    rw [hfm, hw3']
    rw [count_visit_indices]
    have hsm : ((sa :: [sb]).foldl
        (fun b2 st => if st.set.size < b2.set.size then st else b2) sa) = sa ∨
        ((sa :: [sb]).foldl
        (fun b2 st => if st.set.size < b2.set.size then st else b2) sa) = sb := by
      have h := foldl_minby_mem (sa :: [sb]) sa
      rcases List.mem_cons.1 h with h1 | h1
      · exact Or.inl h1
      · rcases List.mem_cons.1 h1 with h2 | h2
        · exact Or.inl h2
        · rcases List.mem_cons.1 h2 with h3 | h3
          · exact Or.inr h3
          · exact absurd h3 (List.not_mem_nil _)
    by_cases hmm2 : ECS.mask_match_row w ei req = true
    · rw [if_pos hmm2]
      obtain ⟨hca, hcb⟩ := hmm_iff.1 hmm2
      have hei_lt : ei < w.versions.length :=
        hinv.keys_lt a sa ha ei
          ((contains_iff_mem (hinv.st_wf a sa ha) ei).1 hca)
      have halive : w.is_alive ⟨ei, w.versions.getD ei 0⟩ = true :=
        alive_getD_self hei_lt
      have hhA : w.has ⟨ei, w.versions.getD ei 0⟩ a = true := by
        rw [has_eq_of_lookup ha, halive, Bool.true_and]
        exact hca
      have hhB : w.has ⟨ei, w.versions.getD ei 0⟩ b = true := by
        rw [has_eq_of_lookup hb, halive, Bool.true_and]
        exact hcb
      rw [if_pos ⟨hhA, hhB⟩]
      rcases hsm with hs | hs
      · rw [hs]
        exact List.count_eq_one_of_mem (dense_nodup (hinv.st_wf a sa ha))
          ((contains_iff_mem (hinv.st_wf a sa ha) ei).1 hca)
      · rw [hs]
        exact List.count_eq_one_of_mem (dense_nodup (hinv.st_wf b sb hb))
          ((contains_iff_mem (hinv.st_wf b sb hb) ei).1 hcb)
    · rw [if_neg hmm2]
      have hno : ¬ (w.has ⟨ei, w.versions.getD ei 0⟩ a = true ∧
          w.has ⟨ei, w.versions.getD ei 0⟩ b = true) := by
        intro hpair
        obtain ⟨hhA, hhB⟩ := hpair
        rw [has_eq_of_lookup ha, Bool.and_eq_true] at hhA
        rw [has_eq_of_lookup hb, Bool.and_eq_true] at hhB
        exact hmm2 (hmm_iff.2 ⟨hhA.2, hhB.2⟩)
      rw [if_neg hno]

theorem C3_witness :
    (((ECS.add (ECS.add (ECS.create_entity (ECS.empty Nat)).2 ⟨0, 1⟩ 0 42)
          ⟨0, 1⟩ 1 7).view 0 [1]).1.map (fun p => p.1.index)).count 0 =
      if (ECS.add (ECS.add (ECS.create_entity (ECS.empty Nat)).2 ⟨0, 1⟩ 0 42)
            ⟨0, 1⟩ 1 7).has
          ⟨0, (ECS.add (ECS.add (ECS.create_entity (ECS.empty Nat)).2
              ⟨0, 1⟩ 0 42) ⟨0, 1⟩ 1 7).versions.getD 0 0⟩ 0 = true ∧
          (ECS.add (ECS.add (ECS.create_entity (ECS.empty Nat)).2 ⟨0, 1⟩ 0 42)
            ⟨0, 1⟩ 1 7).has
          ⟨0, (ECS.add (ECS.add (ECS.create_entity (ECS.empty Nat)).2
              ⟨0, 1⟩ 0 42) ⟨0, 1⟩ 1 7).versions.getD 0 0⟩ 1 = true
        then 1 else 0 :=
  @C3_view_visits_exactly_matching Nat
    (ECS.add (ECS.add (ECS.create_entity (ECS.empty Nat)).2 ⟨0, 1⟩ 0 42)
      ⟨0, 1⟩ 1 7)
    (Reachable.addStep ⟨0, 1⟩ 1 7
      (Reachable.addStep ⟨0, 1⟩ 0 42 (Reachable.create Reachable.init)
        (by decide))
      (by decide))
    0 1
    ⟨0, (SparseSet.empty Nat).insert 0 42⟩
    ⟨1, (SparseSet.empty Nat).insert 0 7⟩
    (by rfl) (by rfl) 0
